import Mathlib

/-!
The check command of the GitHub release resource.

A shallow embedding of `check_command.go` (`CheckCommand.Run`, `byVersion.Less`) and of
`metadata.go` (`metadataFromRelease`), together with the library functions they call, followed
by theorems about the embedding.

Conventions of the embedding:

* Go pointers (`*bool`, `*int`, `*string`) are `Option`s; dereferencing `nil` is a run-time
  fault, modelled by the result `none` of the enclosing function.
* A Go result pair `([]Version, error)` is a pair `List Version × Option GoError`, the error
  `nil` being `none`.
* Strings handed to the semantic-version library are processed as lists of characters.
-/

/-! ## Model of the library `github.com/blang/semver` -/

namespace semver

/-- A pre-release identifier (`PRVersion`): numeric or alphanumeric. -/
structure PRVersion where
  VersionStr : String
  VersionNum : Nat
  IsNum : Bool
deriving DecidableEq, Repr

/-- A parsed semantic version (`Version`). -/
structure Version where
  Major : Nat
  Minor : Nat
  Patch : Nat
  Pre : List PRVersion
  Build : List String
deriving DecidableEq, Repr

/-- Membership in the constant `numbers`. -/
def isNumber (c : Char) : Bool :=
  decide (48 ≤ c.toNat) && decide (c.toNat ≤ 57)

/-- Membership in the constant `alphanum` (letters, the hyphen and the digits). -/
def isAlphanum (c : Char) : Bool :=
  (decide (97 ≤ c.toNat) && decide (c.toNat ≤ 122)) ||
  (decide (65 ≤ c.toNat) && decide (c.toNat ≤ 90)) ||
  decide (c.toNat = 45) || isNumber c

/-- The helper `containsOnly(s, set)`. -/
def containsOnly (s : List Char) (set : Char → Bool) : Bool :=
  s.all set

/-- The helper `hasLeadingZeroes(s)`: longer than one character and starting with `0`. -/
def hasLeadingZeroes (s : List Char) : Bool :=
  match s with
  | c :: _ :: _ => decide (c = '0')
  | _ => false

/-- The call `strconv.ParseUint(s, 10, 64)`: fails on the empty string, on a character that
is not a digit, and on a value that does not fit 64 bits. -/
def ParseUint (s : List Char) : Option Nat :=
  if s.isEmpty || !containsOnly s isNumber then none
  else
    let n := s.foldl (fun acc c => 10 * acc + (c.toNat - 48)) 0
    if n < 2 ^ 64 then some n else none

/-- A numeric component (major, minor, patch): digits only, no leading zero, 64 bits. -/
def parseNumber (s : List Char) : Option Nat :=
  if !containsOnly s isNumber then none
  else if hasLeadingZeroes s then none
  else ParseUint s

/-- Cuts `s` at the first occurrence of `sep` (`strings.IndexRune` plus the two slices);
`none` when `sep` does not occur. -/
def cut (sep : Char) : List Char → Option (List Char × List Char)
  | [] => none
  | c :: cs =>
    if c = sep then some ([], cs)
    else
      match cut sep cs with
      | none => none
      | some (a, b) => some (c :: a, b)

/-- The call `strings.Split(s, sep)` for a one-character separator. -/
def split (sep : Char) : List Char → List (List Char)
  | [] => [[]]
  | c :: cs =>
    if c = sep then [] :: split sep cs
    else
      match split sep cs with
      | [] => [[c]]
      | p :: ps => (c :: p) :: ps

/-- The constructor `NewPRVersion(s)`. -/
def NewPRVersion (s : List Char) : Option PRVersion :=
  if s.isEmpty then none
  else if containsOnly s isNumber then
    if hasLeadingZeroes s then none
    else
      match ParseUint s with
      | none => none
      | some num => some { VersionStr := "", VersionNum := num, IsNum := true }
  else if containsOnly s isAlphanum then
    some { VersionStr := String.mk s, VersionNum := 0, IsNum := false }
  else none

/-- One build-metadata identifier: non-empty and alphanumeric. -/
def parseBuild (s : List Char) : Option String :=
  if s.isEmpty then none
  else if !containsOnly s isAlphanum then none
  else some (String.mk s)

/-- The parser on a character list: `major.minor.patch[-pre][+build]`. -/
def parse (s : List Char) : Option Version :=
  if s.isEmpty then none
  else
    match cut '.' s with
    | none => none
    | some (majorStr, rest) =>
      match cut '.' rest with
      | none => none
      | some (minorStr, tail) =>
        match parseNumber majorStr, parseNumber minorStr with
        | some major, some minor =>
          let (patchStr₁, build) :=
            match cut '+' tail with
            | some (p, b) => (p, split '.' b)
            | none => (tail, [])
          let (patchStr, prerelease) :=
            match cut '-' patchStr₁ with
            | some (p, b) => (p, split '.' b)
            | none => (patchStr₁, [])
          match parseNumber patchStr, prerelease.mapM NewPRVersion, build.mapM parseBuild with
          | some patch, some pre, some bld =>
            some { Major := major, Minor := minor, Patch := patch, Pre := pre, Build := bld }
          | _, _, _ => none
        | _, _ => none

/-- The constructor `semver.New(s)`; `none` stands for a returned error. -/
def New (s : String) : Option Version :=
  parse s.data

/-- The method `PRVersion.Compare`: `-1`, `0` or `1`. Numeric identifiers are lower than
alphanumeric ones. -/
def PRVersion.Compare (v o : PRVersion) : Int :=
  if v.IsNum && !o.IsNum then -1
  else if !v.IsNum && o.IsNum then 1
  else if v.IsNum && o.IsNum then
    if v.VersionNum = o.VersionNum then 0
    else if v.VersionNum > o.VersionNum then 1
    else -1
  else
    if v.VersionStr = o.VersionStr then 0
    else if v.VersionStr > o.VersionStr then 1
    else -1

/-- The loop of `Version.Compare` over two non-empty pre-release lists, with the length
comparison that follows it. -/
def comparePre : List PRVersion → List PRVersion → Int
  | [], [] => 0
  | [], _ :: _ => -1
  | _ :: _, [] => 1
  | a :: as, b :: bs =>
    let comp := a.Compare b
    if comp = 0 then comparePre as bs
    else if comp = 1 then 1
    else -1

/-- The method `Version.Compare`: major, minor, patch, then pre-release precedence; build
metadata is ignored. -/
def Version.Compare (v o : Version) : Int :=
  if v.Major ≠ o.Major then (if v.Major > o.Major then 1 else -1)
  else if v.Minor ≠ o.Minor then (if v.Minor > o.Minor then 1 else -1)
  else if v.Patch ≠ o.Patch then (if v.Patch > o.Patch then 1 else -1)
  else if v.Pre.length = 0 ∧ o.Pre.length = 0 then 0
  else if v.Pre.length = 0 ∧ o.Pre.length > 0 then 1
  else if v.Pre.length > 0 ∧ o.Pre.length = 0 then -1
  else comparePre v.Pre o.Pre

/-- The method `Version.LT`. -/
def Version.LT (v o : Version) : Bool :=
  decide (v.Compare o = -1)

/-- The precedence key of a pre-release identifier: numeric identifiers come before
alphanumeric ones, each kind in its own order. It is used to reason about
`PRVersion.Compare`. -/
def prKey (p : PRVersion) : Lex (Nat ⊕ String) :=
  if p.IsNum then toLex (Sum.inl p.VersionNum) else toLex (Sum.inr p.VersionStr)

/-- Pre-release precedence in words: the identifiers are compared from left to right, the first
difference decides, and when one list is a proper prefix of the other the shorter one is
lower. -/
def preLess : List PRVersion → List PRVersion → Prop
  | [], [] => False
  | [], _ :: _ => True
  | _ :: _, [] => False
  | a :: as, b :: bs => prKey a < prKey b ∨ (prKey a = prKey b ∧ preLess as bs)

/-- Semantic-version precedence in the spec's words (§4.2): major, then minor, then patch, then
pre-release precedence, where a version with pre-release identifiers is lower than the same
version without. -/
def precedes (v o : Version) : Prop :=
  v.Major < o.Major ∨ (v.Major = o.Major ∧ (v.Minor < o.Minor ∨ (v.Minor = o.Minor ∧
    (v.Patch < o.Patch ∨ (v.Patch = o.Patch ∧
      ((v.Pre ≠ [] ∧ o.Pre = []) ∨ (v.Pre ≠ [] ∧ o.Pre ≠ [] ∧ preLess v.Pre o.Pre)))))))

end semver

/-! ## Model of `strconv.Itoa` -/

namespace strconv

/-- Decimal digits of `n`, most significant first, prepended to `acc`; `fuel` bounds the
number of digits. -/
def digitsAux : Nat → Nat → List Char → List Char
  | 0, _, acc => acc
  | fuel + 1, n, acc =>
    let acc₁ := Char.ofNat (48 + n % 10) :: acc
    if n / 10 = 0 then acc₁ else digitsAux fuel (n / 10) acc₁

/-- Decimal digits of a natural number. -/
def natDigits (n : Nat) : List Char :=
  digitsAux (n + 1) n []

/-- The function `strconv.Itoa`: the decimal string of an integer. -/
def Itoa (i : Int) : String :=
  match i with
  | Int.ofNat n => String.mk (natDigits n)
  | Int.negSucc n => String.mk ('-' :: natDigits (n + 1))

/-- The value of a digit string; it reads back what `natDigits` writes. -/
def digitsValue (cs : List Char) : Nat :=
  cs.foldl (fun acc c => 10 * acc + (c.toNat - 48)) 0

end strconv

/-! ## The resource: data model -/

namespace resource

/-- The record `github.RepositoryRelease`, restricted to the fields the resource reads. Every
field is a pointer in Go. -/
structure RepositoryRelease where
  ID : Option Int
  TagName : Option String
  Name : Option String
  Body : Option String
  HTMLURL : Option String
  Draft : Option Bool
  Prerelease : Option Bool
deriving DecidableEq, Repr

/-- Modelled from the spec: the type `Version` is declared outside the files under src/. The
spec (§3, §6) describes a version token and a cursor as carrying a `tag` and a numeric `id`
string; the tests build it as `Version{Tag: ...}`. The zero value `Version{}` has both empty. -/
structure Version where
  Tag : String
  ID : String
deriving DecidableEq, Repr

/-- Modelled from the spec: the type `Source` is declared outside the files under src/. Of the
configuration only the flag `Drafts` (the spec's `includeDrafts`) is read by the check. -/
structure Source where
  Drafts : Bool
deriving DecidableEq, Repr

/-- Modelled from the spec: the type `CheckRequest` is declared outside the files under src/;
`Run` reads `request.Source` and `request.Version`. -/
structure CheckRequest where
  Source : Source
  Version : Version
deriving DecidableEq, Repr

/-- A Go `error` value. -/
abbrev GoError := String

/-- Modelled from the spec: `determineVersionFromTag` is defined outside the files under src/.
The spec (§4.1 rule 3, §4.4): the raw tag is normalized "by stripping a conventional single
leading non-numeric character (commonly a `v` prefix) before parse". -/
def determineVersionFromTag (tag : String) : String :=
  match tag.data with
  | [] => tag
  | c :: cs => if semver.isNumber c then tag else String.mk cs

/-- Modelled from the spec: `versionFromDraft` is defined outside the files under src/. The
spec (§3): a version token is "derived from either the release's tag (published) or its
numeric identifier (draft-without-tag)", and a cursor is "a tag string (for published
releases), or a numeric identifier string (for draft releases, which may lack a tag)"; the
check tests expect `Version{Tag: "v0.4.0"}` for the published release tagged `v0.4.0`. The
model branches on the draft flag, as the scan loop of `Run` does when it compares a release
with the cursor. Reading an absent field is a fault. -/
def versionFromDraft (release : RepositoryRelease) : Option Version :=
  match release.Draft with
  | none => none
  | some true =>
    match release.ID with
    | none => none
    | some id => some { Tag := "", ID := strconv.Itoa id }
  | some false =>
    match release.TagName with
    | none => none
    | some tag => some { Tag := tag, ID := "" }

/-! ## The resource: `check_command.go` -/

/-- The method `byVersion.Less(i, j)` on the two releases at the indices `i` and `j`. A release
whose tag fails to parse is lower than anything; `none` is the fault of reading an absent
tag. -/
def Less (ri rj : RepositoryRelease) : Option Bool :=
  match ri.TagName with
  | none => none
  | some ti =>
    match semver.New (determineVersionFromTag ti) with
    | none => some true
    | some first =>
      match rj.TagName with
      | none => none
      | some tj =>
        match semver.New (determineVersionFromTag tj) with
        | none => some false
        | some second => some (first.LT second)

/-- The filter loop of `Run` (lines 33-45): keeps, in input order, the releases whose draft
flag equals `drafts`, whose tag is present and whose normalized tag parses. -/
def filterLoop (drafts : Bool) : List RepositoryRelease → Option (List RepositoryRelease)
  | [] => some []
  | release :: rest =>
    match release.Draft with
    | none => none
    | some d =>
      if drafts ≠ d then filterLoop drafts rest
      else
        match release.TagName with
        | none => filterLoop drafts rest
        | some tag =>
          match semver.New (determineVersionFromTag tag) with
          | none => filterLoop drafts rest
          | some _ =>
            match filterLoop drafts rest with
            | none => none
            | some kept => some (release :: kept)

/-- The cursor test of the scan loop (lines 71-77): a draft is compared by the decimal string
of its id with the cursor's `ID`, any other release by its tag with the cursor's `Tag`. -/
def matchesCursor (request : CheckRequest) (release : RepositoryRelease) : Option Bool :=
  match release.Draft with
  | none => none
  | some true =>
    match release.ID with
    | none => none
    | some id => some (decide (request.Version.ID = strconv.Itoa id))
  | some false =>
    match release.TagName with
    | none => none
    | some version => some (decide (request.Version.Tag = version))

/-- One iteration of the scan loop of `Run` (lines 66-79) on the state
`(upToLatest, reversedVersions)`. -/
def scanStep (request : CheckRequest) (state : Bool × List Version)
    (release : RepositoryRelease) : Option (Bool × List Version) :=
  if state.1 then
    match versionFromDraft release with
    | none => none
    | some v => some (true, state.2 ++ [v])
  else
    match matchesCursor request release with
    | none => none
    | some found => some (found, state.2)

/-- The scan loop of `Run` (lines 66-79). -/
def scanLoop (request : CheckRequest) :
    List RepositoryRelease → Bool × List Version → Option (Bool × List Version)
  | [], state => some state
  | release :: rest, state =>
    match scanStep request state release with
    | none => none
    | some state₁ => scanLoop request rest state₁

/-- Lines 49-89 of `Run`: the delta computation on the filtered and sorted releases. -/
def resolve (request : CheckRequest) (filteredReleases : List RepositoryRelease) :
    Option (List Version × Option GoError) :=
  if filteredReleases.length = 0 then some ([], none)
  else
    match filteredReleases.getLast? with
    | none => none
    | some latestRelease =>
      if request.Version = { Tag := "", ID := "" } then
        match versionFromDraft latestRelease with
        | none => none
        | some v => some ([v], none)
      else
        match latestRelease.TagName with
        | none => none
        | some latestTag =>
          if latestTag = request.Version.Tag then some ([], none)
          else
            match scanLoop request filteredReleases (false, []) with
            | none => none
            | some (upToLatest, reversedVersions) =>
              if !upToLatest then
                match versionFromDraft latestRelease with
                | none => none
                | some v => some (reversedVersions ++ [v], none)
              else some (reversedVersions, none)

/-- The method `CheckCommand.Run`. The first argument stands for `sort.Sort(byVersion(...))` of
the Go standard library, the second for the result of `c.github.ListReleases()`. The result
`none` is a run-time fault; `some (versions, err)` is the returned pair. -/
def Run (sort : List RepositoryRelease → List RepositoryRelease)
    (listReleases : Except GoError (List RepositoryRelease)) (request : CheckRequest) :
    Option (List Version × Option GoError) :=
  match listReleases with
  | .error err => some ([], some err)
  | .ok releases =>
    if releases.length = 0 then some ([], none)
    else
      match filterLoop request.Source.Drafts releases with
      | none => none
      | some kept => resolve request (sort kept)

/-! ## A reference sort and the vocabulary of the statements -/

/-- Insertion of one release before the first element that is not lower than it. -/
def insertByVersion (r : RepositoryRelease) : List RepositoryRelease → List RepositoryRelease
  | [] => [r]
  | x :: xs => if Less x r = some true then x :: insertByVersion r xs else r :: x :: xs

/-- Insertion sort with the comparator `Less`: one function that meets the contract of
`sort.Sort` on eligible releases; it is used to evaluate `Run` on given inputs. -/
def insertionSort (l : List RepositoryRelease) : List RepositoryRelease :=
  l.foldr insertByVersion []

/-- The parsed semantic version of a release: its tag, normalized and parsed. -/
def parsedVersion (r : RepositoryRelease) : Option semver.Version :=
  match r.TagName with
  | none => none
  | some tag => semver.New (determineVersionFromTag tag)

/-- A release is eligible: draft flag equal to `drafts`, tag present, normalized tag parses. -/
def eligible (drafts : Bool) (r : RepositoryRelease) : Bool :=
  decide (r.Draft = some drafts) && (parsedVersion r).isSome

/-- The candidate set: the eligible releases in input order. -/
def candidates (drafts : Bool) (releases : List RepositoryRelease) : List RepositoryRelease :=
  releases.filter (eligible drafts)

/-- What `sort.Sort` guarantees on the list `l`: the result is a rearrangement of `l` in which
no element is lower, by `Less`, than an element before it. -/
def SortContract (sort : List RepositoryRelease → List RepositoryRelease)
    (l : List RepositoryRelease) : Prop :=
  (sort l).Perm l ∧ (sort l).Pairwise (fun a b => Less b a ≠ some true)

/-- A published release with the given tag, as the release source lists it. -/
def published (id : Int) (tag : String) : RepositoryRelease :=
  { ID := some id, TagName := some tag, Name := none, Body := none, HTMLURL := none,
    Draft := some false, Prerelease := some false }

/-- A draft release with the given tag. -/
def draft (id : Int) (tag : String) : RepositoryRelease :=
  { ID := some id, TagName := some tag, Name := none, Body := none, HTMLURL := none,
    Draft := some true, Prerelease := some false }

/-- Two releases have the same precedence: both tags parse and `Compare` gives `0` (build
metadata does not count). -/
def samePrecedence (a b : RepositoryRelease) : Bool :=
  match parsedVersion a, parsedVersion b with
  | some va, some vb => decide (va.Compare vb = 0)
  | _, _ => false

/-- The fixture `{TagName: github.String(tag)}` of `check_command_test.go`: a release with
only a tag name, every other field `nil`. -/
def tagged (tag : String) : RepositoryRelease :=
  { ID := none, TagName := some tag, Name := none, Body := none, HTMLURL := none,
    Draft := none, Prerelease := none }

/-- The helper `buildRelease(id, tag, draft)` of `in_command_test.go` (lines 54-63); it leaves
`Prerelease` unset. -/
def buildRelease (id : Int) (tag : String) (draft : Bool) : RepositoryRelease :=
  { ID := some id, TagName := some tag, HTMLURL := some "http://google.com",
    Name := some "release-name", Body := some "*markdown*", Draft := some draft,
    Prerelease := none }

/-! ## The resource: `metadata.go` -/

/-- Modelled from the spec: the type `MetadataPair` is declared outside the files under src/
and the spec does not describe it; its fields are the ones `metadata.go` and the tests assign
(`Name`, `Value`, `URL`, `Markdown`), with Go's zero values where nothing is assigned. -/
structure MetadataPair where
  Name : String
  Value : String
  URL : String
  Markdown : Bool
deriving DecidableEq, Repr

/-- The function `metadataFromRelease`. The result `none` is the fault of dereferencing an
absent `Draft` or `Prerelease`. -/
def metadataFromRelease (release : RepositoryRelease) : Option (List MetadataPair) :=
  let metadata : List MetadataPair := []
  let metadata :=
    match release.Name with
    | some name =>
      let nameMeta : MetadataPair :=
        { Name := "name", Value := name, URL := "", Markdown := false }
      let nameMeta :=
        match release.HTMLURL with
        | some url => { nameMeta with URL := url }
        | none => nameMeta
      metadata ++ [nameMeta]
    | none => metadata
  let metadata :=
    match release.HTMLURL with
    | some url => metadata ++ [{ Name := "url", Value := url, URL := "", Markdown := false }]
    | none => metadata
  let metadata :=
    match release.Body with
    | some body => metadata ++ [{ Name := "body", Value := body, URL := "", Markdown := true }]
    | none => metadata
  let metadata :=
    match release.TagName with
    | some tag => metadata ++ [{ Name := "tag", Value := tag, URL := "", Markdown := false }]
    | none => metadata
  match release.Draft with
  | none => none
  | some isDraft =>
    let metadata :=
      if isDraft then
        metadata ++ [{ Name := "draft", Value := "true", URL := "", Markdown := false }]
      else metadata
    match release.Prerelease with
    | none => none
    | some isPrerelease =>
      let metadata :=
        if isPrerelease then
          metadata ++ [{ Name := "pre-release", Value := "true", URL := "", Markdown := false }]
        else metadata
      some metadata

/-! ## Facts about the library models -/

theorem New_empty : semver.New (determineVersionFromTag "") = none := by
  decide

theorem PRVersion_Compare_self (p : semver.PRVersion) : p.Compare p = 0 := by
  unfold semver.PRVersion.Compare
  cases p.IsNum <;> simp

theorem comparePre_self : ∀ l : List semver.PRVersion, semver.comparePre l l = 0
  | [] => by simp [semver.comparePre]
  | p :: l => by simp [semver.comparePre, PRVersion_Compare_self, comparePre_self l]

theorem Compare_self (v : semver.Version) : v.Compare v = 0 := by
  unfold semver.Version.Compare
  by_cases h : v.Pre.length = 0
  · simp [h]
  · simp [h, comparePre_self, Nat.pos_of_ne_zero h]

theorem LT_irrefl (v : semver.Version) : v.LT v = false := by
  simp [semver.Version.LT, Compare_self]

/-! ## `strconv.Itoa` is injective -/

theorem digitChar_toNat (d : Nat) (h : d < 10) : (Char.ofNat (48 + d)).toNat = 48 + d := by
  interval_cases d <;> rfl

theorem digitsValue_foldl (l : List Char) (a : Nat) :
    l.foldl (fun acc c => 10 * acc + (c.toNat - 48)) a =
      a * 10 ^ l.length + strconv.digitsValue l := by
  unfold strconv.digitsValue
  induction l generalizing a with
  | nil => simp
  | cons c cs ih =>
    simp only [List.foldl_cons, List.length_cons]
    rw [ih (10 * a + (c.toNat - 48)), ih (10 * 0 + (c.toNat - 48))]
    ring

theorem digitsValue_cons (c : Char) (l : List Char) :
    strconv.digitsValue (c :: l) = (c.toNat - 48) * 10 ^ l.length + strconv.digitsValue l := by
  have h := digitsValue_foldl l (10 * 0 + (c.toNat - 48))
  simp only [strconv.digitsValue, List.foldl_cons] at h ⊢
  rw [h]
  ring

theorem digitsValue_digitsAux :
    ∀ (fuel n : Nat) (acc : List Char), n < fuel →
      strconv.digitsValue (strconv.digitsAux fuel n acc) =
        n * 10 ^ acc.length + strconv.digitsValue acc
  | 0, _, _, h => absurd h (Nat.not_lt_zero _)
  | fuel + 1, n, acc, h => by
    have hd : (Char.ofNat (48 + n % 10)).toNat - 48 = n % 10 := by
      rw [digitChar_toNat _ (Nat.mod_lt _ (by decide))]; omega
    unfold strconv.digitsAux
    by_cases h0 : n / 10 = 0
    · simp only [h0, if_true]
      rw [digitsValue_cons, hd]
      have : n % 10 = n := by omega
      rw [this]
    · simp only [h0, if_false]
      rw [digitsValue_digitsAux fuel (n / 10) _ (by omega), digitsValue_cons, hd]
      simp only [List.length_cons, pow_succ]
      have hn : n = 10 * (n / 10) + n % 10 := (Nat.div_add_mod n 10).symm
      generalize n / 10 = q at hn ⊢
      generalize n % 10 = m at hn ⊢
      subst hn
      ring

theorem natDigits_injective (n m : Nat) (h : strconv.natDigits n = strconv.natDigits m) :
    n = m := by
  have hn := digitsValue_digitsAux (n + 1) n [] (Nat.lt_succ_self n)
  have hm := digitsValue_digitsAux (m + 1) m [] (Nat.lt_succ_self m)
  unfold strconv.natDigits at h
  rw [h, hm] at hn
  simpa [strconv.digitsValue] using hn.symm

theorem digitsAux_head (fuel n : Nat) (acc : List Char) :
    ∃ d rest, d < 10 ∧ strconv.digitsAux (fuel + 1) n acc = Char.ofNat (48 + d) :: rest := by
  induction fuel generalizing n acc with
  | zero =>
    refine ⟨n % 10, acc, Nat.mod_lt _ (by decide), ?_⟩
    simp [strconv.digitsAux]
  | succ fuel ih =>
    unfold strconv.digitsAux
    by_cases h0 : n / 10 = 0
    · exact ⟨n % 10, acc, Nat.mod_lt _ (by decide), by simp [h0]⟩
    · simp only [h0, if_false]
      exact ih (n / 10) _

theorem natDigits_ne_minus (n : Nat) (l : List Char) : strconv.natDigits n ≠ '-' :: l := by
  obtain ⟨d, rest, hd, h⟩ := digitsAux_head n n []
  unfold strconv.natDigits
  rw [h]
  intro hc
  have h1 : (Char.ofNat (48 + d)).toNat = ('-' : Char).toNat := by
    rw [(List.cons.inj hc).1]
  rw [digitChar_toNat d hd] at h1
  have h2 : ('-' : Char).toNat = 45 := rfl
  omega

theorem Itoa_injective (i j : Int) (h : strconv.Itoa i = strconv.Itoa j) : i = j := by
  have h := congrArg String.data h
  cases i with
  | ofNat n =>
    cases j with
    | ofNat m =>
      simp only [strconv.Itoa] at h
      rw [natDigits_injective n m h]
    | negSucc m =>
      simp only [strconv.Itoa] at h
      exact absurd h (natDigits_ne_minus n _)
  | negSucc n =>
    cases j with
    | ofNat m =>
      simp only [strconv.Itoa] at h
      exact absurd h.symm (natDigits_ne_minus m _)
    | negSucc m =>
      simp only [strconv.Itoa, List.cons.injEq, true_and] at h
      have := natDigits_injective (n + 1) (m + 1) h
      have : n = m := by omega
      rw [this]

theorem Itoa_ne_empty (i : Int) : strconv.Itoa i ≠ "" := by
  cases i with
  | ofNat n =>
    obtain ⟨d, rest, _, h⟩ := digitsAux_head n n []
    intro hc
    simp only [strconv.Itoa, strconv.natDigits] at hc
    rw [h] at hc
    exact absurd (congrArg String.data hc) (by simp)
  | negSucc n =>
    intro hc
    simp only [strconv.Itoa] at hc
    exact absurd (congrArg String.data hc) (by simp)

/-! ## Facts about the filter loop -/

theorem eligible_iff (drafts : Bool) (r : RepositoryRelease) :
    eligible drafts r = true ↔
      r.Draft = some drafts ∧ ∃ tag pv, r.TagName = some tag ∧
        semver.New (determineVersionFromTag tag) = some pv := by
  unfold eligible parsedVersion
  rcases hT : r.TagName with _ | tag
  · simp
  · rcases hP : semver.New (determineVersionFromTag tag) with _ | pv
    · simp [hP]
    · simp [hP]

theorem filterLoop_cons_eligible (drafts : Bool) (r : RepositoryRelease)
    (rest : List RepositoryRelease) (h : eligible drafts r = true) :
    filterLoop drafts (r :: rest) = (filterLoop drafts rest).map (fun kept => r :: kept) := by
  obtain ⟨hD, tag, pv, hT, hP⟩ := (eligible_iff drafts r).1 h
  simp only [filterLoop, hD, hT, hP]
  cases filterLoop drafts rest <;> simp

theorem filterLoop_cons_not_eligible (drafts : Bool) (r : RepositoryRelease)
    (rest : List RepositoryRelease) (d : Bool) (hD : r.Draft = some d)
    (h : eligible drafts r = false) :
    filterLoop drafts (r :: rest) = filterLoop drafts rest := by
  have hne : ¬ eligible drafts r = true := by simp [h]
  rw [eligible_iff] at hne
  simp only [filterLoop, hD]
  by_cases hd : drafts = d
  · subst hd
    rcases hT : r.TagName with _ | tag
    · simp
    · rcases hP : semver.New (determineVersionFromTag tag) with _ | pv
      · simp [hP]
      · exact absurd ⟨hD, tag, pv, hT, hP⟩ hne
  · simp [hd]

/-- Whenever the filter loop completes, it has computed the candidate set. -/
theorem filterLoop_eq_some (drafts : Bool) :
    ∀ (releases kept : List RepositoryRelease),
      filterLoop drafts releases = some kept → kept = candidates drafts releases
  | [], kept, h => by
    simp only [filterLoop, Option.some.injEq] at h
    simp [candidates, ← h]
  | r :: rest, kept, h => by
    rcases hD : r.Draft with _ | d
    · simp [filterLoop, hD] at h
    · cases hE : eligible drafts r
      · rw [filterLoop_cons_not_eligible drafts r rest d hD hE] at h
        have ih := filterLoop_eq_some drafts rest kept h
        simp [candidates, List.filter_cons, hE, ih]
      · rw [filterLoop_cons_eligible drafts r rest hE] at h
        rcases hR : filterLoop drafts rest with _ | kept₁
        · simp [hR] at h
        · have ih := filterLoop_eq_some drafts rest kept₁ hR
          simp only [hR, Option.map_some', Option.some.injEq] at h
          simp [candidates, List.filter_cons, hE, ← h, ih]

/-- The filter loop completes when every release carries a draft flag. -/
theorem filterLoop_of_flags (drafts : Bool) :
    ∀ (releases : List RepositoryRelease), (∀ r ∈ releases, r.Draft ≠ none) →
      filterLoop drafts releases = some (candidates drafts releases)
  | [], _ => by simp [filterLoop, candidates]
  | r :: rest, h => by
    have ih := filterLoop_of_flags drafts rest (fun x hx => h x (List.mem_cons_of_mem _ hx))
    rcases hD : r.Draft with _ | d
    · exact absurd hD (h r (List.mem_cons_self _ _))
    · cases hE : eligible drafts r
      · rw [filterLoop_cons_not_eligible drafts r rest d hD hE, ih]
        simp [candidates, List.filter_cons, hE]
      · rw [filterLoop_cons_eligible drafts r rest hE, ih]
        simp [candidates, List.filter_cons, hE]

theorem mem_candidates (drafts : Bool) (releases : List RepositoryRelease)
    (r : RepositoryRelease) :
    r ∈ candidates drafts releases ↔ r ∈ releases ∧ eligible drafts r = true := by
  simp [candidates, List.mem_filter]

/-! ## Facts about candidates and their tokens -/

theorem candidate_facts (drafts : Bool) (releases : List RepositoryRelease)
    (r : RepositoryRelease) (h : r ∈ candidates drafts releases) :
    r ∈ releases ∧ r.Draft = some drafts ∧ ∃ tag pv, r.TagName = some tag ∧
      semver.New (determineVersionFromTag tag) = some pv ∧ tag ≠ "" := by
  obtain ⟨hm, he⟩ := (mem_candidates drafts releases r).1 h
  obtain ⟨hD, tag, pv, hT, hP⟩ := (eligible_iff drafts r).1 he
  refine ⟨hm, hD, tag, pv, hT, hP, ?_⟩
  intro h0
  rw [h0, New_empty] at hP
  exact Option.noConfusion hP

theorem versionFromDraft_published (r : RepositoryRelease) (tag : String)
    (hD : r.Draft = some false) (hT : r.TagName = some tag) :
    versionFromDraft r = some { Tag := tag, ID := "" } := by
  simp [versionFromDraft, hD, hT]

theorem versionFromDraft_draft (r : RepositoryRelease) (id : Int)
    (hD : r.Draft = some true) (hI : r.ID = some id) :
    versionFromDraft r = some { Tag := "", ID := strconv.Itoa id } := by
  simp [versionFromDraft, hD, hI]

theorem matchesCursor_published (request : CheckRequest) (r : RepositoryRelease) (tag : String)
    (hD : r.Draft = some false) (hT : r.TagName = some tag) :
    matchesCursor request r = some (decide (request.Version.Tag = tag)) := by
  simp [matchesCursor, hD, hT]

theorem matchesCursor_draft (request : CheckRequest) (r : RepositoryRelease) (id : Int)
    (hD : r.Draft = some true) (hI : r.ID = some id) :
    matchesCursor request r = some (decide (request.Version.ID = strconv.Itoa id)) := by
  simp [matchesCursor, hD, hI]

/-- A candidate that carries an id has a token, in a published and in a draft run. -/
theorem candidate_token (drafts : Bool) (releases : List RepositoryRelease)
    (r : RepositoryRelease) (h : r ∈ candidates drafts releases) (hid : r.ID ≠ none) :
    ∃ v, versionFromDraft r = some v := by
  obtain ⟨_, hD, tag, _, hT, _, _⟩ := candidate_facts drafts releases r h
  cases drafts with
  | false => exact ⟨_, versionFromDraft_published r tag hD hT⟩
  | true =>
    rcases hI : r.ID with _ | id
    · exact absurd hI hid
    · exact ⟨_, versionFromDraft_draft r id hD hI⟩

theorem tokens_exist :
    ∀ l : List RepositoryRelease, (∀ x ∈ l, ∃ v, versionFromDraft x = some v) →
      ∃ vs : List Version, l.map versionFromDraft = vs.map some
  | [], _ => ⟨[], rfl⟩
  | x :: l, h => by
    obtain ⟨v, hv⟩ := h x (List.mem_cons_self _ _)
    obtain ⟨vs, hvs⟩ := tokens_exist l (fun y hy => h y (List.mem_cons_of_mem _ hy))
    exact ⟨v :: vs, by simp [hv, hvs]⟩

/-! ## Facts about the scan loop -/

theorem scanLoop_after (request : CheckRequest) :
    ∀ (l : List RepositoryRelease) (vs acc : List Version),
      l.map versionFromDraft = vs.map some →
      scanLoop request l (true, acc) = some (true, acc ++ vs)
  | [], [], acc, _ => by simp [scanLoop]
  | [], _ :: _, _, h => by simp at h
  | _ :: _, [], _, h => by simp at h
  | x :: l, v :: vs, acc, h => by
    simp only [List.map_cons, List.cons.injEq] at h
    simp only [scanLoop, scanStep, h.1, if_true]
    rw [scanLoop_after request l vs (acc ++ [v]) h.2]
    simp

theorem scanLoop_no_match (request : CheckRequest) (acc : List Version) :
    ∀ l : List RepositoryRelease, (∀ x ∈ l, matchesCursor request x = some false) →
      scanLoop request l (false, acc) = some (false, acc)
  | [], _ => by simp [scanLoop]
  | x :: l, h => by
    have hx := h x (List.mem_cons_self _ _)
    simp only [scanLoop, scanStep, hx]
    exact scanLoop_no_match request acc l (fun y hy => h y (List.mem_cons_of_mem _ hy))

theorem scanLoop_match (request : CheckRequest) (acc : List Version) (r : RepositoryRelease)
    (post : List RepositoryRelease) (vs : List Version)
    (hr : matchesCursor request r = some true)
    (hpost : post.map versionFromDraft = vs.map some) :
    ∀ pre : List RepositoryRelease, (∀ x ∈ pre, matchesCursor request x = some false) →
      scanLoop request (pre ++ r :: post) (false, acc) = some (true, acc ++ vs)
  | [], _ => by
    simp only [List.nil_append, scanLoop, scanStep, hr]
    exact scanLoop_after request post vs acc hpost
  | x :: pre, h => by
    have hx := h x (List.mem_cons_self _ _)
    simp only [List.cons_append, scanLoop, scanStep, hx]
    exact scanLoop_match request acc r post vs hr hpost pre
      (fun y hy => h y (List.mem_cons_of_mem _ hy))

/-! ## Facts about `resolve` and `Run` -/

theorem resolve_nil (request : CheckRequest) : resolve request [] = some ([], none) := by
  simp [resolve]

theorem resolve_first_run (source : Source) (s : List RepositoryRelease)
    (latest : RepositoryRelease) (v : Version) (hl : s.getLast? = some latest)
    (hv : versionFromDraft latest = some v) :
    resolve { Source := source, Version := { Tag := "", ID := "" } } s = some ([v], none) := by
  have hlen : s.length ≠ 0 := by
    intro h0
    rw [List.length_eq_zero.1 h0] at hl
    simp at hl
  simp [resolve, hlen, hl, hv]

theorem resolve_latest_tag (request : CheckRequest) (s : List RepositoryRelease)
    (latest : RepositoryRelease) (hl : s.getLast? = some latest)
    (hne : request.Version ≠ { Tag := "", ID := "" })
    (ht : latest.TagName = some request.Version.Tag) :
    resolve request s = some ([], none) := by
  have hlen : s.length ≠ 0 := by
    intro h0
    rw [List.length_eq_zero.1 h0] at hl
    simp at hl
  simp [resolve, hlen, hl, hne, ht]

theorem resolve_scan (request : CheckRequest) (s : List RepositoryRelease)
    (latest : RepositoryRelease) (tag : String) (found : Bool) (vs : List Version)
    (hl : s.getLast? = some latest)
    (hne : request.Version ≠ { Tag := "", ID := "" })
    (ht : latest.TagName = some tag) (hdiff : tag ≠ request.Version.Tag)
    (hscan : scanLoop request s (false, []) = some (found, vs)) :
    resolve request s =
      if found then some (vs, none)
      else (versionFromDraft latest).map (fun v => (vs ++ [v], none)) := by
  have hlen : s.length ≠ 0 := by
    intro h0
    rw [List.length_eq_zero.1 h0] at hl
    simp at hl
  simp only [resolve, hlen, hl, hne, ht, hdiff, hscan, if_false]
  cases found
  · cases versionFromDraft latest <;> simp
  · simp

theorem Run_ok (sort : List RepositoryRelease → List RepositoryRelease)
    (releases : List RepositoryRelease) (request : CheckRequest)
    (hflags : ∀ x ∈ releases, x.Draft ≠ none)
    (hperm : (sort (candidates request.Source.Drafts releases)).Perm
      (candidates request.Source.Drafts releases)) :
    Run sort (.ok releases) request =
      resolve request (sort (candidates request.Source.Drafts releases)) := by
  simp only [Run, filterLoop_of_flags request.Source.Drafts releases hflags]
  by_cases h0 : releases.length = 0
  · have hnil : releases = [] := List.length_eq_zero.1 h0
    subst hnil
    have hc : candidates request.Source.Drafts [] = [] := rfl
    rw [hc] at hperm ⊢
    rw [List.Perm.eq_nil hperm]
    simp [resolve]
  · simp [h0]

theorem split_at_position (s : List RepositoryRelease) (k : Nat) (r : RepositoryRelease)
    (hk : s[k]? = some r) : s = s.take k ++ r :: s.drop (k + 1) := by
  obtain ⟨hlt, heq⟩ := List.getElem?_eq_some.1 hk
  have h := (List.take_append_drop k s).symm
  rw [List.drop_eq_getElem_cons hlt, heq] at h
  exact h

/-- The delta computation when the cursor is matched at position `k` and nowhere before:
the tokens of the positions after `k`, provided line 60 does not cut the scan short. -/
theorem resolve_at_position (request : CheckRequest) (s : List RepositoryRelease) (k : Nat)
    (r : RepositoryRelease) (hk : s[k]? = some r)
    (hne : request.Version ≠ { Tag := "", ID := "" })
    (htok : ∀ x ∈ s, ∃ v, versionFromDraft x = some v)
    (htag : ∀ x ∈ s, x.TagName ≠ none)
    (hpre : ∀ x ∈ s.take k, matchesCursor request x = some false)
    (hr : matchesCursor request r = some true)
    (h60 : ∀ latest, s.getLast? = some latest →
      latest.TagName = some request.Version.Tag → s.drop (k + 1) = []) :
    ∃ vs, resolve request s = some (vs, none) ∧
      (s.drop (k + 1)).map versionFromDraft = vs.map some := by
  have hsplit := split_at_position s k r hk
  have hsne : s ≠ [] := by
    intro h0
    rw [h0] at hk
    simp at hk
  obtain ⟨latest, hl⟩ : ∃ latest, s.getLast? = some latest :=
    ⟨s.getLast hsne, List.getLast?_eq_getLast s hsne⟩
  have hlmem : latest ∈ s := List.mem_of_getLast?_eq_some hl
  obtain ⟨vs, hvs⟩ := tokens_exist (s.drop (k + 1))
    (fun x hx => htok x (List.mem_of_mem_drop hx))
  rcases hT : latest.TagName with _ | tag
  · exact absurd hT (htag latest hlmem)
  · by_cases hdiff : tag = request.Version.Tag
    · have hnil := h60 latest hl (by rw [hT, hdiff])
      refine ⟨[], resolve_latest_tag request s latest hl hne (by rw [hT, hdiff]), ?_⟩
      simp [hnil]
    · have hscan : scanLoop request s (false, []) = some (true, vs) := by
        have := scanLoop_match request [] r (s.drop (k + 1)) vs hr hvs (s.take k) hpre
        rw [← hsplit] at this
        simpa using this
      refine ⟨vs, ?_, hvs⟩
      rw [resolve_scan request s latest tag true vs hl hne hT hdiff hscan]
      simp

/-- In a list with pairwise distinct tags, the last element's tag occurs at position `k` only
when nothing follows position `k`. -/
theorem drop_nil_of_last_tag (s : List RepositoryRelease) (k : Nat)
    (r latest : RepositoryRelease) (hk : s[k]? = some r) (hl : s.getLast? = some latest)
    (hpw : s.Pairwise (fun a b => a.TagName ≠ b.TagName))
    (heq : latest.TagName = r.TagName) : s.drop (k + 1) = [] := by
  have hsplit := split_at_position s k r hk
  rcases hd : s.drop (k + 1) with _ | ⟨y, ys⟩
  · rfl
  · exfalso
    rw [hd] at hsplit
    rw [hsplit] at hpw hl
    have hlast : latest ∈ y :: ys := by
      have h1 : (s.take k ++ r :: y :: ys).getLast? = (y :: ys).getLast? := by
        rw [List.getLast?_append, List.getLast?_cons_cons]
        cases hq : (y :: ys).getLast? with
        | none => simp at hq
        | some q => rfl
      rw [h1] at hl
      exact List.mem_of_getLast?_eq_some hl
    have h2 := (List.pairwise_append.1 hpw).2.1
    exact (List.pairwise_cons.1 h2).1 latest hlast heq.symm

theorem Less_parsed (a b : RepositoryRelease) (va vb : semver.Version)
    (ha : parsedVersion a = some va) (hb : parsedVersion b = some vb) :
    Less a b = some (va.LT vb) := by
  unfold parsedVersion at ha hb
  rcases hTa : a.TagName with _ | ta
  · simp [hTa] at ha
  · rcases hTb : b.TagName with _ | tb
    · simp [hTb] at hb
    · simp only [hTa] at ha
      simp only [hTb] at hb
      simp [Less, hTa, hTb, ha, hb]

theorem candidate_parsed (drafts : Bool) (releases : List RepositoryRelease)
    (r : RepositoryRelease) (h : r ∈ candidates drafts releases) :
    ∃ pv, parsedVersion r = some pv := by
  obtain ⟨_, _, tag, pv, hT, hP, _⟩ := candidate_facts drafts releases r h
  exact ⟨pv, by simp [parsedVersion, hT, hP]⟩

/-- The last element of the sorted candidates has a maximal parsed version. -/
theorem last_is_max (sort : List RepositoryRelease → List RepositoryRelease)
    (drafts : Bool) (releases : List RepositoryRelease) (latest : RepositoryRelease)
    (hsort : SortContract sort (candidates drafts releases))
    (hl : (sort (candidates drafts releases)).getLast? = some latest)
    (pv : semver.Version) (hpv : parsedVersion latest = some pv) :
    ∀ r ∈ candidates drafts releases, ∀ pv₁, parsedVersion r = some pv₁ → pv.LT pv₁ = false := by
  intro r hr pv₁ hpv₁
  obtain ⟨ys, hys⟩ := List.getLast?_eq_some_iff.1 hl
  have hmem : r ∈ ys ++ [latest] := by
    rw [← hys]
    exact hsort.1.mem_iff.2 hr
  rcases List.mem_append.1 hmem with h1 | h1
  · have hpw := hsort.2
    rw [hys] at hpw
    have h2 := (List.pairwise_append.1 hpw).2.2 r h1 latest (List.mem_singleton_self _)
    rw [Less_parsed latest r pv pv₁ hpv hpv₁] at h2
    cases hlt : pv.LT pv₁
    · rfl
    · rw [hlt] at h2
      exact absurd rfl h2
  · have h2 : r = latest := List.mem_singleton.1 h1
    subst h2
    rw [hpv] at hpv₁
    rw [← Option.some.inj hpv₁]
    exact LT_irrefl pv

theorem sorted_last_exists (sort : List RepositoryRelease → List RepositoryRelease)
    (c : List RepositoryRelease) (hperm : (sort c).Perm c) (hne : c ≠ []) :
    ∃ latest, (sort c).getLast? = some latest ∧ latest ∈ c := by
  have hsne : sort c ≠ [] := by
    intro h0
    rw [h0] at hperm
    exact hne (List.Perm.nil_eq hperm).symm
  refine ⟨(sort c).getLast hsne, List.getLast?_eq_getLast _ hsne, ?_⟩
  exact hperm.mem_iff.1 (List.getLast_mem hsne)

theorem scanLoop_tokens (request : CheckRequest) :
    ∀ (l : List RepositoryRelease) (found : Bool) (acc : List Version) (found₁ : Bool)
      (out : List Version), scanLoop request l (found, acc) = some (found₁, out) →
      ∀ v ∈ out, v ∈ acc ∨ ∃ r ∈ l, versionFromDraft r = some v
  | [], found, acc, found₁, out, h => by
    simp only [scanLoop, Option.some.injEq, Prod.mk.injEq] at h
    intro v hv
    rw [← h.2] at hv
    exact Or.inl hv
  | x :: l, found, acc, found₁, out, h => by
    intro v hv
    simp only [scanLoop] at h
    rcases hstep : scanStep request (found, acc) x with _ | ⟨f₁, acc₁⟩
    · simp [hstep] at h
    · simp only [hstep] at h
      rcases scanLoop_tokens request l f₁ acc₁ found₁ out h v hv with h1 | ⟨r, hr, hrv⟩
      · unfold scanStep at hstep
        cases found with
        | true =>
          rcases hx : versionFromDraft x with _ | w
          · simp [hx] at hstep
          · simp only [hx, if_true, Option.some.injEq, Prod.mk.injEq] at hstep
            rw [← hstep.2] at h1
            rcases List.mem_append.1 h1 with h2 | h2
            · exact Or.inl h2
            · rw [List.mem_singleton.1 h2]
              exact Or.inr ⟨x, List.mem_cons_self _ _, hx⟩
        | false =>
          rcases hx : matchesCursor request x with _ | b
          · simp [hx] at hstep
          · simp only [hx, Bool.false_eq_true, if_false, Option.some.injEq,
              Prod.mk.injEq] at hstep
            rw [← hstep.2] at h1
            exact Or.inl h1
      · exact Or.inr ⟨r, List.mem_cons_of_mem _ hr, hrv⟩

/-- Whatever `resolve` returns carries a nil error and only tokens of releases it was given. -/
theorem resolve_tokens (request : CheckRequest) (s : List RepositoryRelease)
    (vs : List Version) (e : Option GoError) (h : resolve request s = some (vs, e)) :
    e = none ∧ ∀ v ∈ vs, ∃ r ∈ s, versionFromDraft r = some v := by
  by_cases hs : s = []
  · subst hs
    rw [resolve_nil] at h
    simp only [Option.some.injEq, Prod.mk.injEq] at h
    refine ⟨h.2.symm, ?_⟩
    intro v hv
    rw [← h.1] at hv
    simp at hv
  · obtain ⟨latest, hl⟩ : ∃ latest, s.getLast? = some latest :=
      ⟨s.getLast hs, List.getLast?_eq_getLast s hs⟩
    have hlm : latest ∈ s := List.mem_of_getLast?_eq_some hl
    have hlen : s.length ≠ 0 := fun h0 => hs (List.length_eq_zero.1 h0)
    by_cases hv0 : request.Version = { Tag := "", ID := "" }
    · rcases hv : versionFromDraft latest with _ | w
      · simp [resolve, hlen, hl, hv0, hv] at h
      · simp only [resolve, hlen, hl, hv0, hv, if_true, if_false, Option.some.injEq,
          Prod.mk.injEq] at h
        refine ⟨h.2.symm, ?_⟩
        intro v hvm
        rw [← h.1, List.mem_singleton] at hvm
        rw [hvm]
        exact ⟨latest, hlm, hv⟩
    · rcases hT : latest.TagName with _ | tag
      · simp [resolve, hlen, hl, hv0, hT] at h
      · by_cases hdiff : tag = request.Version.Tag
        · rw [resolve_latest_tag request s latest hl hv0 (by rw [hT, hdiff])] at h
          simp only [Option.some.injEq, Prod.mk.injEq] at h
          refine ⟨h.2.symm, ?_⟩
          intro v hv
          rw [← h.1] at hv
          simp at hv
        · rcases hscan : scanLoop request s (false, []) with _ | ⟨found, out⟩
          · simp [resolve, hlen, hl, hv0, hT, hdiff, hscan] at h
          · have htok := scanLoop_tokens request s false [] found out hscan
            rw [resolve_scan request s latest tag found out hl hv0 hT hdiff hscan] at h
            cases found with
            | true =>
              simp only [if_true, Option.some.injEq, Prod.mk.injEq] at h
              refine ⟨h.2.symm, ?_⟩
              intro v hv
              rw [← h.1] at hv
              rcases htok v hv with h1 | h1
              · simp at h1
              · exact h1
            | false =>
              rcases hv : versionFromDraft latest with _ | w
              · simp [hv] at h
              · simp only [hv, Option.map_some', Bool.false_eq_true, if_false,
                  Option.some.injEq, Prod.mk.injEq] at h
                refine ⟨h.2.symm, ?_⟩
                intro v hvm
                rw [← h.1] at hvm
                rcases List.mem_append.1 hvm with h2 | h2
                · rcases htok v h2 with h1 | h1
                  · simp at h1
                  · exact h1
                · rw [List.mem_singleton.1 h2]
                  exact ⟨latest, hlm, hv⟩

theorem scanLoop_total (request : CheckRequest) :
    ∀ (l : List RepositoryRelease) (state : Bool × List Version),
      (∀ x ∈ l, (∃ v, versionFromDraft x = some v) ∧ ∃ b, matchesCursor request x = some b) →
      ∃ state₁, scanLoop request l state = some state₁
  | [], state, _ => ⟨state, rfl⟩
  | x :: l, state, h => by
    obtain ⟨⟨v, hv⟩, b, hb⟩ := h x (List.mem_cons_self _ _)
    have hstep : ∃ st, scanStep request state x = some st := by
      unfold scanStep
      cases state.1 <;> simp [hv, hb]
    obtain ⟨st, hst⟩ := hstep
    simp only [scanLoop, hst]
    exact scanLoop_total request l st (fun y hy => h y (List.mem_cons_of_mem _ hy))

/-- The delta computation completes, with a nil error, on releases that all have a tag, a
token and a defined cursor test. -/
theorem resolve_total (request : CheckRequest) (s : List RepositoryRelease)
    (h : ∀ x ∈ s, (∃ v, versionFromDraft x = some v) ∧
      (∃ b, matchesCursor request x = some b) ∧ x.TagName ≠ none) :
    ∃ vs, resolve request s = some (vs, none) := by
  by_cases hs : s = []
  · subst hs
    exact ⟨[], resolve_nil request⟩
  · obtain ⟨latest, hl⟩ : ∃ latest, s.getLast? = some latest :=
      ⟨s.getLast hs, List.getLast?_eq_getLast s hs⟩
    have hlm : latest ∈ s := List.mem_of_getLast?_eq_some hl
    obtain ⟨⟨v, hv⟩, _, hTn⟩ := h latest hlm
    by_cases hv0 : request.Version = { Tag := "", ID := "" }
    · obtain ⟨source, version⟩ := request
      simp only at hv0
      subst hv0
      exact ⟨[v], resolve_first_run source s latest v hl hv⟩
    · rcases hT : latest.TagName with _ | tag
      · exact absurd hT hTn
      · by_cases hdiff : tag = request.Version.Tag
        · exact ⟨[], resolve_latest_tag request s latest hl hv0 (by rw [hT, hdiff])⟩
        · obtain ⟨⟨found, out⟩, hscan⟩ := scanLoop_total request s (false, [])
            (fun x hx => ⟨(h x hx).1, (h x hx).2.1⟩)
          rw [resolve_scan request s latest tag found out hl hv0 hT hdiff hscan]
          cases found with
          | true => exact ⟨out, by simp⟩
          | false => exact ⟨out ++ [v], by simp [hv]⟩

theorem candidate_matches (request : CheckRequest) (drafts : Bool)
    (releases : List RepositoryRelease) (r : RepositoryRelease)
    (h : r ∈ candidates drafts releases) (hid : r.ID ≠ none) :
    ∃ b, matchesCursor request r = some b := by
  obtain ⟨_, hD, tag, _, hT, _, _⟩ := candidate_facts drafts releases r h
  cases drafts with
  | false => exact ⟨_, matchesCursor_published request r tag hD hT⟩
  | true =>
    rcases hI : r.ID with _ | id
    · exact absurd hI hid
    · exact ⟨_, matchesCursor_draft request r id hD hI⟩

/-! ## The claims -/

/-- C1: in a published run (`Source.Drafts = false`) whose eligible releases have pairwise
distinct tags, for a cursor whose `Tag` is the tag of the element at position `k` of the sorted
eligible releases, `Run` returns no error and exactly the version tokens of the elements at the
positions `k+1 .. n-1`, in the order of the sorted list. The statement needs no assumption on
the parsed versions being distinct. -/
theorem check_returns_tokens_after_cursor
    (sort : List RepositoryRelease → List RepositoryRelease)
    (releases : List RepositoryRelease) (cursor : Version) (k : Nat) (r : RepositoryRelease)
    (hflags : ∀ x ∈ releases, x.Draft ≠ none)
    (hsort : SortContract sort (candidates false releases))
    (htags : (candidates false releases).Pairwise (fun a b => a.TagName ≠ b.TagName))
    (hk : (sort (candidates false releases))[k]? = some r)
    (hcur : r.TagName = some cursor.Tag) :
    ∃ vs, Run sort (.ok releases) { Source := { Drafts := false }, Version := cursor } =
        some (vs, none) ∧
      ((sort (candidates false releases)).drop (k + 1)).map versionFromDraft = vs.map some := by
  have hperm := hsort.1
  rw [Run_ok sort releases _ hflags hperm]
  have hfacts : ∀ x ∈ sort (candidates false releases),
      x.Draft = some false ∧ ∃ tag, x.TagName = some tag ∧ tag ≠ "" := by
    intro x hx
    obtain ⟨_, hD, tag, _, hT, _, h0⟩ := candidate_facts false releases x (hperm.mem_iff.1 hx)
    exact ⟨hD, tag, hT, h0⟩
  have hpw : (sort (candidates false releases)).Pairwise (fun a b => a.TagName ≠ b.TagName) :=
    (hperm.pairwise_iff (fun {a b} (h : a.TagName ≠ b.TagName) => h.symm)).2 htags
  have hrmem : r ∈ sort (candidates false releases) := List.getElem?_mem hk
  obtain ⟨hrD, rtag, hrT, hr0⟩ := hfacts r hrmem
  have hctag : cursor.Tag = rtag := by
    rw [hrT] at hcur
    exact (Option.some.inj hcur).symm
  apply resolve_at_position _ _ k r hk
  · intro h0
    apply hr0
    rw [← hctag]
    exact congrArg Version.Tag h0
  · intro x hx
    obtain ⟨hD, tag, hT, _⟩ := hfacts x hx
    exact ⟨_, versionFromDraft_published x tag hD hT⟩
  · intro x hx
    obtain ⟨_, tag, hT, _⟩ := hfacts x hx
    rw [hT]
    simp
  · intro x hx
    obtain ⟨hD, tag, hT, _⟩ := hfacts x (List.mem_of_mem_take hx)
    rw [matchesCursor_published _ x tag hD hT]
    have hsplit := split_at_position _ k r hk
    rw [hsplit] at hpw
    have hne := (List.pairwise_append.1 hpw).2.2 x hx r (List.mem_cons_self _ _)
    rw [hT, hrT] at hne
    have : cursor.Tag ≠ tag := by
      rw [hctag]
      intro h
      exact hne (by rw [h])
    simp [this]
  · rw [matchesCursor_published _ r rtag hrD hrT]
    simp [hctag]
  · intro latest hl ht
    exact drop_nil_of_last_tag _ k r latest hk hl hpw (by rw [ht, hcur])

/-- Witness of C1: the releases `v0.1.4, 0.4.0, v0.1.3, 0.1.2` with the cursor tag `v0.1.3`
(position 1 of the sorted candidates) give `[v0.1.4, 0.4.0]`. -/
theorem check_returns_tokens_after_cursor_witness :
    ∃ vs, Run insertionSort
        (.ok [published 1 "v0.1.4", published 2 "0.4.0", published 3 "v0.1.3",
          published 4 "0.1.2"])
        { Source := { Drafts := false }, Version := { Tag := "v0.1.3", ID := "" } } =
        some (vs, none) ∧
      ((insertionSort (candidates false [published 1 "v0.1.4", published 2 "0.4.0",
          published 3 "v0.1.3", published 4 "0.1.2"])).drop (1 + 1)).map versionFromDraft =
        vs.map some :=
  check_returns_tokens_after_cursor insertionSort
    [published 1 "v0.1.4", published 2 "0.4.0", published 3 "v0.1.3", published 4 "0.1.2"]
    { Tag := "v0.1.3", ID := "" } 1 (published 3 "v0.1.3")
    (by decide) (by unfold SortContract; decide) (by decide) (by decide) (by decide)

/-- C2: when at least one release is eligible and the cursor is empty (`Version{}`), `Run`
returns no error and a list of length exactly 1: the token of an eligible release whose parsed
version is maximal, that is, no eligible release has a strictly greater version. -/
theorem check_first_run_returns_latest
    (sort : List RepositoryRelease → List RepositoryRelease)
    (releases : List RepositoryRelease) (drafts : Bool)
    (hflags : ∀ x ∈ releases, x.Draft ≠ none ∧ x.ID ≠ none)
    (hsort : SortContract sort (candidates drafts releases))
    (hne : candidates drafts releases ≠ []) :
    ∃ r v pv, r ∈ candidates drafts releases ∧
      Run sort (.ok releases)
        { Source := { Drafts := drafts }, Version := { Tag := "", ID := "" } } =
        some ([v], none) ∧
      versionFromDraft r = some v ∧ parsedVersion r = some pv ∧
      ∀ r₁ ∈ candidates drafts releases, ∀ pv₁, parsedVersion r₁ = some pv₁ →
        pv.LT pv₁ = false := by
  obtain ⟨latest, hl, hlc⟩ := sorted_last_exists sort _ hsort.1 hne
  obtain ⟨pv, hpv⟩ := candidate_parsed drafts releases latest hlc
  obtain ⟨v, hv⟩ := candidate_token drafts releases latest hlc
    (hflags latest (candidate_facts drafts releases latest hlc).1).2
  refine ⟨latest, v, pv, hlc, ?_, hv, hpv, last_is_max sort drafts releases latest hsort hl pv hpv⟩
  rw [Run_ok sort releases _ (fun x hx => (hflags x hx).1) hsort.1]
  exact resolve_first_run _ _ latest v hl hv

/-- Witness of C2: the releases `v0.4.0, 0.1.3, v0.1.2` give `[{Tag: v0.4.0}]`. -/
theorem check_first_run_returns_latest_witness :
    ∃ r v pv, r ∈ candidates false
        [published 1 "v0.4.0", published 2 "0.1.3", published 3 "v0.1.2"] ∧
      Run insertionSort (.ok [published 1 "v0.4.0", published 2 "0.1.3", published 3 "v0.1.2"])
        { Source := { Drafts := false }, Version := { Tag := "", ID := "" } } =
        some ([v], none) ∧
      versionFromDraft r = some v ∧ parsedVersion r = some pv ∧
      ∀ r₁ ∈ candidates false [published 1 "v0.4.0", published 2 "0.1.3", published 3 "v0.1.2"],
        ∀ pv₁, parsedVersion r₁ = some pv₁ → pv.LT pv₁ = false :=
  check_first_run_returns_latest insertionSort
    [published 1 "v0.4.0", published 2 "0.1.3", published 3 "v0.1.2"] false
    (by decide) (by unfold SortContract; decide) (by decide)

/-- C3: when the candidate set is not empty and the cursor identifies the last element of the
sorted candidates (by its tag in a published run; by the decimal string of its id in a draft
run whose candidates have pairwise distinct ids), `Run` returns the empty list and no error. -/
theorem check_cursor_at_latest_returns_nothing
    (sort : List RepositoryRelease → List RepositoryRelease)
    (releases : List RepositoryRelease) (drafts : Bool) (cursor : Version)
    (latest : RepositoryRelease)
    (hflags : ∀ x ∈ releases, x.Draft ≠ none ∧ x.ID ≠ none)
    (hsort : SortContract sort (candidates drafts releases))
    (hl : (sort (candidates drafts releases)).getLast? = some latest)
    (hcur : (drafts = false ∧ latest.TagName = some cursor.Tag) ∨
      (drafts = true ∧ (candidates drafts releases).Pairwise (fun a b => a.ID ≠ b.ID) ∧
        ∃ id, latest.ID = some id ∧ cursor.ID = strconv.Itoa id)) :
    Run sort (.ok releases) { Source := { Drafts := drafts }, Version := cursor } =
      some ([], none) := by
  have hperm := hsort.1
  rw [Run_ok sort releases _ (fun x hx => (hflags x hx).1) hperm]
  have hlc : latest ∈ candidates drafts releases :=
    hperm.mem_iff.1 (List.mem_of_getLast?_eq_some hl)
  rcases hcur with ⟨_, ht⟩ | ⟨hd, hids, id, hlid, hcid⟩
  · obtain ⟨_, _, tag, _, hT, _, h0⟩ := candidate_facts drafts releases latest hlc
    apply resolve_latest_tag _ _ latest hl _ ht
    intro hc
    apply h0
    rw [hT] at ht
    rw [Option.some.inj ht]
    exact congrArg Version.Tag hc
  · subst hd
    obtain ⟨ys, hys⟩ := List.getLast?_eq_some_iff.1 hl
    have hfacts : ∀ x ∈ sort (candidates true releases),
        x.Draft = some true ∧ (∃ i, x.ID = some i) ∧ x.TagName ≠ none := by
      intro x hx
      obtain ⟨hm, hD, tag, _, hT, _, _⟩ :=
        candidate_facts true releases x (hperm.mem_iff.1 hx)
      refine ⟨hD, ?_, by simp [hT]⟩
      rcases hI : x.ID with _ | i
      · exact absurd hI (hflags x hm).2
      · exact ⟨i, rfl⟩
    have hpw : (sort (candidates true releases)).Pairwise (fun a b => a.ID ≠ b.ID) :=
      (hperm.pairwise_iff (fun {a b} (h : a.ID ≠ b.ID) => h.symm)).2 hids
    have hk : (sort (candidates true releases))[ys.length]? = some latest := by
      rw [hys]
      simp
    have htake : (sort (candidates true releases)).take ys.length = ys := by
      rw [hys]
      simp
    have hdrop : (sort (candidates true releases)).drop (ys.length + 1) = [] := by
      rw [hys]
      simp
    obtain ⟨vs, hres, hvs⟩ := resolve_at_position
      { Source := { Drafts := true }, Version := cursor } _ ys.length latest hk
      (by
        intro hc
        have h1 : cursor.ID = "" := congrArg Version.ID hc
        rw [hcid] at h1
        exact Itoa_ne_empty id h1)
      (fun x hx => by
        obtain ⟨hD, ⟨i, hI⟩, _⟩ := hfacts x hx
        exact ⟨_, versionFromDraft_draft x i hD hI⟩)
      (fun x hx => (hfacts x hx).2.2)
      (fun x hx => by
        rw [htake] at hx
        obtain ⟨hD, ⟨i, hI⟩, _⟩ := hfacts x (by rw [hys]; exact List.mem_append_left _ hx)
        rw [matchesCursor_draft _ x i hD hI]
        rw [hys] at hpw
        have hne := (List.pairwise_append.1 hpw).2.2 x hx latest (List.mem_singleton_self _)
        rw [hI, hlid] at hne
        have : cursor.ID ≠ strconv.Itoa i := by
          rw [hcid]
          intro h
          exact hne (by rw [Itoa_injective id i h])
        simp [this])
      (by
        rw [matchesCursor_draft _ latest id (hfacts latest
          (List.mem_of_getLast?_eq_some hl)).1 hlid]
        simp [hcid])
      (fun _ _ _ => hdrop)
    rw [hdrop] at hvs
    have hnil : vs = [] := by
      cases vs with
      | nil => rfl
      | cons _ _ => simp at hvs
    rw [hres, hnil]

/-- Witness of C3: the drafts with ids 1 and 2, tagged `v1.0.0` and `v2.0.0`, and the cursor
`{ID: 2}`. -/
theorem check_cursor_at_latest_returns_nothing_witness :
    Run insertionSort (.ok [draft 2 "v2.0.0", draft 1 "v1.0.0"])
      { Source := { Drafts := true }, Version := { Tag := "", ID := "2" } } = some ([], none) :=
  check_cursor_at_latest_returns_nothing insertionSort [draft 2 "v2.0.0", draft 1 "v1.0.0"]
    true { Tag := "", ID := "2" } (draft 2 "v2.0.0") (by decide)
    (by unfold SortContract; decide) (by decide)
    (Or.inr ⟨rfl, by decide, 2, by decide, by decide⟩)

/-- C4: when the candidate set is not empty and a non-empty cursor matches no candidate (its
`Tag` differs from every candidate's tag and its `ID` from the decimal string of every
candidate's id), `Run` returns no error and exactly what it returns for the empty cursor: the
one-element list holding the token of the last sorted candidate, whose parsed version is
maximal. -/
theorem check_unknown_cursor_resets_to_latest
    (sort : List RepositoryRelease → List RepositoryRelease)
    (releases : List RepositoryRelease) (drafts : Bool) (cursor : Version)
    (hflags : ∀ x ∈ releases, x.Draft ≠ none ∧ x.ID ≠ none)
    (hsort : SortContract sort (candidates drafts releases))
    (hne : candidates drafts releases ≠ [])
    (hcur : cursor ≠ { Tag := "", ID := "" })
    (hno : ∀ c ∈ candidates drafts releases,
      c.TagName ≠ some cursor.Tag ∧ ∀ id, c.ID = some id → cursor.ID ≠ strconv.Itoa id) :
    ∃ latest v pv, (sort (candidates drafts releases)).getLast? = some latest ∧
      versionFromDraft latest = some v ∧
      Run sort (.ok releases) { Source := { Drafts := drafts }, Version := cursor } =
        some ([v], none) ∧
      Run sort (.ok releases)
        { Source := { Drafts := drafts }, Version := { Tag := "", ID := "" } } =
        some ([v], none) ∧
      parsedVersion latest = some pv ∧
      ∀ r₁ ∈ candidates drafts releases, ∀ pv₁, parsedVersion r₁ = some pv₁ →
        pv.LT pv₁ = false := by
  have hperm := hsort.1
  obtain ⟨latest, hl, hlc⟩ := sorted_last_exists sort _ hperm hne
  obtain ⟨pv, hpv⟩ := candidate_parsed drafts releases latest hlc
  obtain ⟨v, hv⟩ := candidate_token drafts releases latest hlc
    (hflags latest (candidate_facts drafts releases latest hlc).1).2
  refine ⟨latest, v, pv, hl, hv, ?_, ?_, hpv,
    last_is_max sort drafts releases latest hsort hl pv hpv⟩
  · rw [Run_ok sort releases _ (fun x hx => (hflags x hx).1) hperm]
    obtain ⟨_, _, tag, _, hT, _, _⟩ := candidate_facts drafts releases latest hlc
    have hdiff : tag ≠ cursor.Tag := by
      intro h
      exact (hno latest hlc).1 (by rw [hT, h])
    have hscan : scanLoop { Source := { Drafts := drafts }, Version := cursor }
        (sort (candidates drafts releases)) (false, []) = some (false, []) := by
      apply scanLoop_no_match
      intro x hx
      have hxc := hperm.mem_iff.1 hx
      obtain ⟨hm, hD, xtag, _, hxT, _, _⟩ := candidate_facts drafts releases x hxc
      cases drafts with
      | false =>
        rw [matchesCursor_published _ x xtag hD hxT]
        have : cursor.Tag ≠ xtag := by
          intro h
          exact (hno x hxc).1 (by rw [hxT, h])
        simp [this]
      | true =>
        rcases hI : x.ID with _ | i
        · exact absurd hI (hflags x hm).2
        · rw [matchesCursor_draft _ x i hD hI]
          have := (hno x hxc).2 i hI
          simp [this]
    rw [resolve_scan _ _ latest tag false [] hl hcur hT hdiff hscan]
    simp [hv]
  · rw [Run_ok sort releases _ (fun x hx => (hflags x hx).1) hperm]
    exact resolve_first_run _ _ latest v hl hv

/-- Witness of C4: the cursor tag `v9.9.9` against the releases `v0.1.4, 0.4.0, v0.1.3,
0.1.2`. -/
theorem check_unknown_cursor_resets_to_latest_witness :
    ∃ latest v pv,
      (insertionSort (candidates false [published 1 "v0.1.4", published 2 "0.4.0",
        published 3 "v0.1.3", published 4 "0.1.2"])).getLast? = some latest ∧
      versionFromDraft latest = some v ∧
      Run insertionSort (.ok [published 1 "v0.1.4", published 2 "0.4.0",
          published 3 "v0.1.3", published 4 "0.1.2"])
        { Source := { Drafts := false }, Version := { Tag := "v9.9.9", ID := "" } } =
        some ([v], none) ∧
      Run insertionSort (.ok [published 1 "v0.1.4", published 2 "0.4.0",
          published 3 "v0.1.3", published 4 "0.1.2"])
        { Source := { Drafts := false }, Version := { Tag := "", ID := "" } } =
        some ([v], none) ∧
      parsedVersion latest = some pv ∧
      ∀ r₁ ∈ candidates false [published 1 "v0.1.4", published 2 "0.4.0",
          published 3 "v0.1.3", published 4 "0.1.2"],
        ∀ pv₁, parsedVersion r₁ = some pv₁ → pv.LT pv₁ = false :=
  check_unknown_cursor_resets_to_latest insertionSort
    [published 1 "v0.1.4", published 2 "0.4.0", published 3 "v0.1.3", published 4 "0.1.2"]
    false { Tag := "v9.9.9", ID := "" }
    (by decide) (by unfold SortContract; decide) (by decide) (by decide) (by decide)

/-- C5: for every cursor and every `Source.Drafts` flag, when the release source succeeds and
no release is eligible (the collection is empty, or every release is excluded by its draft
status, a missing tag or an unparseable tag), `Run` returns the empty list and a nil error. -/
theorem check_without_candidates_returns_nothing
    (sort : List RepositoryRelease → List RepositoryRelease)
    (releases : List RepositoryRelease) (request : CheckRequest)
    (hflags : ∀ x ∈ releases, x.Draft ≠ none)
    (hsort : SortContract sort (candidates request.Source.Drafts releases))
    (hnone : ∀ r ∈ releases, eligible request.Source.Drafts r = false) :
    Run sort (.ok releases) request = some ([], none) := by
  have hc : candidates request.Source.Drafts releases = [] := by
    unfold candidates
    rw [List.filter_eq_nil_iff]
    intro r hr
    simp [hnone r hr]
  have hperm := hsort.1
  rw [Run_ok sort releases request hflags hperm]
  rw [hc] at hperm ⊢
  rw [List.Perm.eq_nil hperm]
  exact resolve_nil request

/-- Witness of C5: a draft, a release without a tag and a release with a malformed tag, in a
published run with a cursor. -/
theorem check_without_candidates_returns_nothing_witness :
    Run insertionSort
      (.ok [draft 1 "v1.0.0",
        { ID := some 2, TagName := none, Name := none, Body := none, HTMLURL := none,
          Draft := some false, Prerelease := some false },
        published 3 "nightly"])
      { Source := { Drafts := false }, Version := { Tag := "v1.0.0", ID := "" } } =
      some ([], none) :=
  check_without_candidates_returns_nothing insertionSort
    [draft 1 "v1.0.0",
      { ID := some 2, TagName := none, Name := none, Body := none, HTMLURL := none,
        Draft := some false, Prerelease := some false },
      published 3 "nightly"]
    { Source := { Drafts := false }, Version := { Tag := "v1.0.0", ID := "" } }
    (by decide) (by unfold SortContract; decide) (by decide)

/-- C6, evaluated on the code: when the release source successfully returns an empty release
list, `Run` returns the empty list and a nil error (lines 27-29), for every sort and every
request, the empty `CheckRequest` included; the tests named "returns an error when there are
no releases" assert an error on this input. -/
theorem check_empty_release_list_is_no_error
    (sort : List RepositoryRelease → List RepositoryRelease) (request : CheckRequest) :
    Run sort (.ok []) request = some ([], none) ∧
    Run sort (.ok []) { Source := { Drafts := false }, Version := { Tag := "", ID := "" } } =
      some ([], none) ∧
    ¬ ∃ vs err, Run sort (.ok []) request = some (vs, some err) := by
  refine ⟨by simp [Run], by simp [Run], ?_⟩
  rintro ⟨vs, err, h⟩
  simp [Run] at h

/-- C7: `Run` returns a non-nil error exactly when `ListReleases` returns one: a fetch error
is returned unchanged together with the empty list, an error returned by `Run` is always the
fetch error, and for every successfully fetched collection whose releases carry a draft flag
and an id `Run` returns a nil error. -/
theorem check_error_iff_fetch_fails
    (sort : List RepositoryRelease → List RepositoryRelease) (request : CheckRequest) :
    (∀ err, Run sort (.error err) request = some ([], some err)) ∧
    (∀ fetch vs err, Run sort fetch request = some (vs, some err) →
      fetch = .error err ∧ vs = []) ∧
    (∀ releases, (∀ x ∈ releases, x.Draft ≠ none ∧ x.ID ≠ none) →
      SortContract sort (candidates request.Source.Drafts releases) →
      ∃ vs, Run sort (.ok releases) request = some (vs, none)) := by
  refine ⟨fun err => rfl, ?_, ?_⟩
  · intro fetch vs err h
    cases fetch with
    | error e =>
      simp only [Run, Option.some.injEq, Prod.mk.injEq] at h
      exact ⟨by rw [h.2], h.1.symm⟩
    | ok releases =>
      exfalso
      simp only [Run] at h
      by_cases h0 : releases.length = 0
      · simp [h0] at h
      · simp only [h0, if_false] at h
        rcases hf : filterLoop request.Source.Drafts releases with _ | kept
        · simp [hf] at h
        · simp only [hf] at h
          have := (resolve_tokens request (sort kept) vs (some err) h).1
          exact Option.noConfusion this
  · intro releases hflags hsort
    have hperm := hsort.1
    rw [Run_ok sort releases request (fun x hx => (hflags x hx).1) hperm]
    apply resolve_total
    intro x hx
    have hxc := hperm.mem_iff.1 hx
    obtain ⟨hm, _, tag, _, hT, _, _⟩ :=
      candidate_facts request.Source.Drafts releases x hxc
    exact ⟨candidate_token _ releases x hxc (hflags x hm).2,
      candidate_matches request _ releases x hxc (hflags x hm).2, by simp [hT]⟩

/-- Witness of C7: a successful fetch of drafts and published releases, checked with a
cursor, gives a nil error. -/
theorem check_error_iff_fetch_fails_witness :
    ∃ vs, Run insertionSort
      (.ok [published 1 "v0.1.4", draft 2 "0.4.0", published 3 "v0.1.3", published 4 "x"])
      { Source := { Drafts := false }, Version := { Tag := "v0.1.3", ID := "" } } =
      some (vs, none) :=
  (check_error_iff_fetch_fails insertionSort
    { Source := { Drafts := false }, Version := { Tag := "v0.1.3", ID := "" } }).2.2
    [published 1 "v0.1.4", draft 2 "0.4.0", published 3 "v0.1.3", published 4 "x"]
    (by decide) (by unfold SortContract; decide)

/-- C8: every version in the list `Run` returns is the token of some input release whose
draft flag equals `Source.Drafts`, whose tag is present and whose normalized tag parses; in a
published run the token's `Tag` is that release's original `TagName`, not its normalized
form. -/
theorem check_versions_are_candidate_tokens
    (sort : List RepositoryRelease → List RepositoryRelease)
    (releases : List RepositoryRelease) (request : CheckRequest)
    (vs : List Version) (err : Option GoError)
    (hsort : SortContract sort (candidates request.Source.Drafts releases))
    (hrun : Run sort (.ok releases) request = some (vs, err)) :
    ∀ v ∈ vs, ∃ r ∈ releases, eligible request.Source.Drafts r = true ∧
      versionFromDraft r = some v ∧
      (request.Source.Drafts = false → r.TagName = some v.Tag) := by
  intro v hv
  simp only [Run] at hrun
  by_cases h0 : releases.length = 0
  · simp only [h0, if_true, Option.some.injEq, Prod.mk.injEq] at hrun
    rw [← hrun.1] at hv
    simp at hv
  · simp only [h0, if_false] at hrun
    rcases hf : filterLoop request.Source.Drafts releases with _ | kept
    · simp [hf] at hrun
    · simp only [hf] at hrun
      have hkept := filterLoop_eq_some _ releases kept hf
      subst hkept
      obtain ⟨r, hr, hrv⟩ := (resolve_tokens request _ vs err hrun).2 v hv
      have hrc := hsort.1.mem_iff.1 hr
      obtain ⟨hm, he⟩ := (mem_candidates _ releases r).1 hrc
      refine ⟨r, hm, he, hrv, ?_⟩
      intro hd
      obtain ⟨_, hD, tag, _, hT, _, _⟩ := candidate_facts _ releases r hrc
      rw [hd] at hD
      rw [versionFromDraft_published r tag hD hT] at hrv
      rw [hT, ← Option.some.inj hrv]

/-- Witness of C8: the returned tag `0.4.0` is the original tag of one of the releases
`v0.1.4, 0.4.0, v0.1.3, 0.1.2`, checked with the cursor tag `v0.1.3`. -/
theorem check_versions_are_candidate_tokens_witness :
    ∃ r ∈ [published 1 "v0.1.4", published 2 "0.4.0", published 3 "v0.1.3",
        published 4 "0.1.2"],
      eligible false r = true ∧ versionFromDraft r = some { Tag := "0.4.0", ID := "" } ∧
      ((false : Bool) = false → r.TagName = some "0.4.0") :=
  check_versions_are_candidate_tokens insertionSort
    [published 1 "v0.1.4", published 2 "0.4.0", published 3 "v0.1.3", published 4 "0.1.2"]
    { Source := { Drafts := false }, Version := { Tag := "v0.1.3", ID := "" } }
    [{ Tag := "v0.1.4", ID := "" }, { Tag := "0.4.0", ID := "" }] none
    (by unfold SortContract; decide) (by decide) { Tag := "0.4.0", ID := "" } (by decide)

/-- C9, as the code behaves: tag normalization is not applied to cursor matching. In a
published run the cursor's `Tag` is compared with the candidates' original tags; a non-empty
cursor whose `Tag` differs from every candidate's original tag, whatever its normalized form,
matches no candidate, and `Run` returns the one-element list holding the token of the last
sorted candidate. -/
theorem check_cursor_is_matched_by_original_tag
    (sort : List RepositoryRelease → List RepositoryRelease)
    (releases : List RepositoryRelease) (cursor : Version)
    (hflags : ∀ x ∈ releases, x.Draft ≠ none)
    (hsort : SortContract sort (candidates false releases))
    (hne : candidates false releases ≠ [])
    (hcur : cursor ≠ { Tag := "", ID := "" })
    (hno : ∀ c ∈ candidates false releases, c.TagName ≠ some cursor.Tag) :
    ∃ latest v, (sort (candidates false releases)).getLast? = some latest ∧
      versionFromDraft latest = some v ∧
      Run sort (.ok releases) { Source := { Drafts := false }, Version := cursor } =
        some ([v], none) := by
  have hperm := hsort.1
  obtain ⟨latest, hl, hlc⟩ := sorted_last_exists sort _ hperm hne
  obtain ⟨_, hD, tag, _, hT, _, _⟩ := candidate_facts false releases latest hlc
  have hv := versionFromDraft_published latest tag hD hT
  refine ⟨latest, _, hl, hv, ?_⟩
  rw [Run_ok sort releases _ hflags hperm]
  have hdiff : tag ≠ cursor.Tag := by
    intro h
    exact hno latest hlc (by rw [hT, h])
  have hscan : scanLoop { Source := { Drafts := false }, Version := cursor }
      (sort (candidates false releases)) (false, []) = some (false, []) := by
    apply scanLoop_no_match
    intro x hx
    have hxc := hperm.mem_iff.1 hx
    obtain ⟨_, hxD, xtag, _, hxT, _, _⟩ := candidate_facts false releases x hxc
    rw [matchesCursor_published _ x xtag hxD hxT]
    have : cursor.Tag ≠ xtag := by
      intro h
      exact hno x hxc (by rw [hxT, h])
    simp [this]
  rw [resolve_scan _ _ latest tag false [] hl hcur hT hdiff hscan]
  simp [hv]

/-- Witness of C9 as amended: the cursor tag `v0.4.0` against the releases `v0.1.4, 0.4.0,
v0.1.3, 0.1.2`. -/
theorem check_cursor_is_matched_by_original_tag_witness :
    ∃ latest v,
      (insertionSort (candidates false [published 1 "v0.1.4", published 2 "0.4.0",
        published 3 "v0.1.3", published 4 "0.1.2"])).getLast? = some latest ∧
      versionFromDraft latest = some v ∧
      Run insertionSort (.ok [published 1 "v0.1.4", published 2 "0.4.0",
          published 3 "v0.1.3", published 4 "0.1.2"])
        { Source := { Drafts := false }, Version := { Tag := "v0.4.0", ID := "" } } =
        some ([v], none) :=
  check_cursor_is_matched_by_original_tag insertionSort
    [published 1 "v0.1.4", published 2 "0.4.0", published 3 "v0.1.3", published 4 "0.1.2"]
    { Tag := "v0.4.0", ID := "" }
    (by decide) (by unfold SortContract; decide) (by decide) (by decide) (by decide)

/-- Counterexample to C9: with the releases `v0.1.4, 0.4.0, v0.1.3, 0.1.2` the latest
candidate is `0.4.0`; the cursor tag `v0.4.0` has the same normalized form, yet `Run` returns
`[0.4.0]` and not the empty list; the cursor tag `0.1.3`, with the normalized form of the
candidate `v0.1.3` at position 1, yields `[0.4.0]` and not `[v0.1.4, 0.4.0]`. -/
theorem check_cursor_normalization_counterexample :
    determineVersionFromTag "v0.4.0" = determineVersionFromTag "0.4.0" ∧
    (insertionSort (candidates false [published 1 "v0.1.4", published 2 "0.4.0",
      published 3 "v0.1.3", published 4 "0.1.2"])).getLast? = some (published 2 "0.4.0") ∧
    Run insertionSort (.ok [published 1 "v0.1.4", published 2 "0.4.0",
        published 3 "v0.1.3", published 4 "0.1.2"])
      { Source := { Drafts := false }, Version := { Tag := "v0.4.0", ID := "" } } =
      some ([{ Tag := "0.4.0", ID := "" }], none) ∧
    determineVersionFromTag "0.1.3" = determineVersionFromTag "v0.1.3" ∧
    (insertionSort (candidates false [published 1 "v0.1.4", published 2 "0.4.0",
      published 3 "v0.1.3", published 4 "0.1.2"]))[1]? = some (published 3 "v0.1.3") ∧
    Run insertionSort (.ok [published 1 "v0.1.4", published 2 "0.4.0",
        published 3 "v0.1.3", published 4 "0.1.2"])
      { Source := { Drafts := false }, Version := { Tag := "0.1.3", ID := "" } } =
      some ([{ Tag := "0.4.0", ID := "" }], none) := by
  decide

/-- C10, as the code behaves: in a draft run (`Source.Drafts = true`) whose candidates have
pairwise distinct ids, the scan matches a candidate exactly when the decimal string of its id
equals the cursor's `ID`; for a cursor whose `ID` is the id string of the candidate at position
`k`, and whose `Tag` is not the tag of the last sorted candidate (line 60 answers such a cursor
with the empty list before any id is compared), `Run` returns the tokens of the candidates at
the positions `k+1 .. n-1` in the order of the sorted list. -/
theorem check_draft_cursor_is_matched_by_id
    (sort : List RepositoryRelease → List RepositoryRelease)
    (releases : List RepositoryRelease) (cursor : Version) (k : Nat) (r : RepositoryRelease)
    (id : Int)
    (hflags : ∀ x ∈ releases, x.Draft ≠ none ∧ x.ID ≠ none)
    (hsort : SortContract sort (candidates true releases))
    (hids : (candidates true releases).Pairwise (fun a b => a.ID ≠ b.ID))
    (hk : (sort (candidates true releases))[k]? = some r)
    (hid : r.ID = some id) (hcur : cursor.ID = strconv.Itoa id)
    (h60 : ∀ latest, (sort (candidates true releases)).getLast? = some latest →
      latest.TagName ≠ some cursor.Tag) :
    (∀ c ∈ candidates true releases, ∀ i, c.ID = some i →
      matchesCursor { Source := { Drafts := true }, Version := cursor } c =
        some (decide (cursor.ID = strconv.Itoa i))) ∧
    ∃ vs, Run sort (.ok releases) { Source := { Drafts := true }, Version := cursor } =
        some (vs, none) ∧
      ((sort (candidates true releases)).drop (k + 1)).map versionFromDraft = vs.map some := by
  have hperm := hsort.1
  refine ⟨?_, ?_⟩
  · intro c hc i hi
    exact matchesCursor_draft _ c i (candidate_facts true releases c hc).2.1 hi
  rw [Run_ok sort releases _ (fun x hx => (hflags x hx).1) hperm]
  have hfacts : ∀ x ∈ sort (candidates true releases),
      x.Draft = some true ∧ (∃ i, x.ID = some i) ∧ x.TagName ≠ none := by
    intro x hx
    obtain ⟨hm, hD, tag, _, hT, _, _⟩ := candidate_facts true releases x (hperm.mem_iff.1 hx)
    refine ⟨hD, ?_, by simp [hT]⟩
    rcases hI : x.ID with _ | i
    · exact absurd hI (hflags x hm).2
    · exact ⟨i, rfl⟩
  have hpw : (sort (candidates true releases)).Pairwise (fun a b => a.ID ≠ b.ID) :=
    (hperm.pairwise_iff (fun {a b} (h : a.ID ≠ b.ID) => h.symm)).2 hids
  apply resolve_at_position _ _ k r hk
  · intro hc
    have h1 : cursor.ID = "" := congrArg Version.ID hc
    rw [hcur] at h1
    exact Itoa_ne_empty id h1
  · intro x hx
    obtain ⟨hD, ⟨i, hI⟩, _⟩ := hfacts x hx
    exact ⟨_, versionFromDraft_draft x i hD hI⟩
  · exact fun x hx => (hfacts x hx).2.2
  · intro x hx
    obtain ⟨hD, ⟨i, hI⟩, _⟩ := hfacts x (List.mem_of_mem_take hx)
    rw [matchesCursor_draft _ x i hD hI]
    have hsplit := split_at_position _ k r hk
    rw [hsplit] at hpw
    have hne := (List.pairwise_append.1 hpw).2.2 x hx r (List.mem_cons_self _ _)
    rw [hI, hid] at hne
    have : cursor.ID ≠ strconv.Itoa i := by
      rw [hcur]
      intro h
      exact hne (by rw [Itoa_injective id i h])
    simp [this]
  · rw [matchesCursor_draft _ r id (hfacts r (List.getElem?_mem hk)).1 hid]
    simp [hcur]
  · intro latest hl ht
    exact absurd ht (h60 latest hl)

/-- Witness of C10 as amended: the drafts with ids 1, 2, 3 tagged `v1.0.0`, `v2.0.0`, `v3.0.0`
and the cursor `{ID: 1, Tag: v1.0.0}`. -/
theorem check_draft_cursor_is_matched_by_id_witness :
    (∀ c ∈ candidates true [draft 3 "v3.0.0", draft 1 "v1.0.0", draft 2 "v2.0.0"],
      ∀ i, c.ID = some i →
      matchesCursor { Source := { Drafts := true }, Version := { Tag := "v1.0.0", ID := "1" } }
        c = some (decide (({ Tag := "v1.0.0", ID := "1" } : Version).ID = strconv.Itoa i))) ∧
    ∃ vs, Run insertionSort (.ok [draft 3 "v3.0.0", draft 1 "v1.0.0", draft 2 "v2.0.0"])
        { Source := { Drafts := true }, Version := { Tag := "v1.0.0", ID := "1" } } =
        some (vs, none) ∧
      ((insertionSort (candidates true [draft 3 "v3.0.0", draft 1 "v1.0.0",
          draft 2 "v2.0.0"])).drop (0 + 1)).map versionFromDraft = vs.map some :=
  check_draft_cursor_is_matched_by_id insertionSort
    [draft 3 "v3.0.0", draft 1 "v1.0.0", draft 2 "v2.0.0"]
    { Tag := "v1.0.0", ID := "1" } 0 (draft 1 "v1.0.0") 1
    (by decide) (by unfold SortContract; decide) (by decide) (by decide) (by decide)
    (by decide) (by decide)

/-- Counterexample to C10: in a draft run over the drafts with ids 1 and 2, tagged `v1.0.0`
and `v2.0.0`, the cursor `{ID: 1, Tag: v2.0.0}` carries the id of the candidate at position 0,
yet `Run` returns the empty list and not the token `{ID: 2}` of position 1, because the
cursor's `Tag` is the tag of the latest candidate. -/
theorem check_draft_cursor_tag_counterexample :
    (candidates true [draft 1 "v1.0.0", draft 2 "v2.0.0"]).Pairwise (fun a b => a.ID ≠ b.ID) ∧
    (insertionSort (candidates true [draft 1 "v1.0.0", draft 2 "v2.0.0"]))[0]? =
      some (draft 1 "v1.0.0") ∧
    ((insertionSort (candidates true [draft 1 "v1.0.0", draft 2 "v2.0.0"])).drop 1).map
      versionFromDraft = [some { Tag := "", ID := "2" }] ∧
    Run insertionSort (.ok [draft 1 "v1.0.0", draft 2 "v2.0.0"])
      { Source := { Drafts := true }, Version := { Tag := "v2.0.0", ID := "1" } } =
      some ([], none) := by
  decide

/-! ## `semver.Version.Compare` is a three-way comparison of a strict order -/

theorem PRVersion_Compare_cases (p q : semver.PRVersion) :
    (semver.prKey p < semver.prKey q ∧ p.Compare q = -1) ∨
    (semver.prKey p = semver.prKey q ∧ p.Compare q = 0) ∨
    (semver.prKey q < semver.prKey p ∧ p.Compare q = 1) := by
  unfold semver.PRVersion.Compare semver.prKey
  cases hp : p.IsNum <;> cases hq : q.IsNum
  · rcases lt_trichotomy p.VersionStr q.VersionStr with h | h | h
    · left
      simp [h, h.ne, lt_asymm h]
      exact String.lt_iff_toList_lt.1 h
    · right; left
      simp [h]
    · right; right
      simp [h, h.ne']
      exact String.lt_iff_toList_lt.1 h
  · right; right
    simp [Sum.Lex.inl_lt_inr]
  · left
    simp [Sum.Lex.inl_lt_inr]
  · rcases lt_trichotomy p.VersionNum q.VersionNum with h | h | h
    · left
      simp [h, h.ne, lt_asymm h]
    · right; left
      simp [h]
    · right; right
      simp [h, h.ne']

theorem PRVersion_Compare_lt_iff (p q : semver.PRVersion) :
    p.Compare q = -1 ↔ semver.prKey p < semver.prKey q := by
  rcases PRVersion_Compare_cases p q with ⟨h, hc⟩ | ⟨h, hc⟩ | ⟨h, hc⟩
  · simp [hc, h]
  · simp [hc, h]
  · simp [hc, lt_asymm h]

theorem PRVersion_Compare_eq_iff (p q : semver.PRVersion) :
    p.Compare q = 0 ↔ semver.prKey p = semver.prKey q := by
  rcases PRVersion_Compare_cases p q with ⟨h, hc⟩ | ⟨h, hc⟩ | ⟨h, hc⟩
  · simp [hc, h.ne]
  · simp [hc, h]
  · simp [hc, h.ne']

theorem PRVersion_Compare_gt_iff (p q : semver.PRVersion) :
    p.Compare q = 1 ↔ semver.prKey q < semver.prKey p := by
  rcases PRVersion_Compare_cases p q with ⟨h, hc⟩ | ⟨h, hc⟩ | ⟨h, hc⟩
  · simp [hc, lt_asymm h]
  · simp [hc, h]
  · simp [hc, h]

/-- The pre-release loop is antisymmetric: swapping the arguments negates the result, which is
`-1`, `0` or `1`. -/
theorem comparePre_cases :
    ∀ l m : List semver.PRVersion,
      (semver.comparePre l m = -1 ∧ semver.comparePre m l = 1) ∨
      (semver.comparePre l m = 0 ∧ semver.comparePre m l = 0) ∨
      (semver.comparePre l m = 1 ∧ semver.comparePre m l = -1)
  | [], [] => by simp [semver.comparePre]
  | [], _ :: _ => by simp [semver.comparePre]
  | _ :: _, [] => by simp [semver.comparePre]
  | a :: as, b :: bs => by
    rcases PRVersion_Compare_cases a b with ⟨h, hc⟩ | ⟨h, hc⟩ | ⟨h, hc⟩
    · have hc' := (PRVersion_Compare_gt_iff b a).2 h
      left
      simp [semver.comparePre, hc, hc']
    · have hc' := (PRVersion_Compare_eq_iff b a).2 h.symm
      simpa [semver.comparePre, hc, hc'] using comparePre_cases as bs
    · have hc' := (PRVersion_Compare_lt_iff b a).2 h
      right; right
      simp [semver.comparePre, hc, hc']

theorem comparePre_trans :
    ∀ l m n : List semver.PRVersion, semver.comparePre l m = -1 → semver.comparePre m n = -1 →
      semver.comparePre l n = -1
  | [], [], _, h, _ => by simp [semver.comparePre] at h
  | [], _ :: _, [], _, h => by simp [semver.comparePre] at h
  | [], _ :: _, _ :: _, _, _ => by simp [semver.comparePre]
  | _ :: _, [], _, h, _ => by simp [semver.comparePre] at h
  | _ :: _, _ :: _, [], _, h => by simp [semver.comparePre] at h
  | a :: as, b :: bs, d :: ds, h₁, h₂ => by
    rcases PRVersion_Compare_cases a b with ⟨hab, hc⟩ | ⟨hab, hc⟩ | ⟨hab, hc⟩
    · rcases PRVersion_Compare_cases b d with ⟨hbd, hc₂⟩ | ⟨hbd, hc₂⟩ | ⟨hbd, hc₂⟩
      · have := (PRVersion_Compare_lt_iff a d).2 (lt_trans hab hbd)
        simp [semver.comparePre, this]
      · have := (PRVersion_Compare_lt_iff a d).2 (hbd ▸ hab)
        simp [semver.comparePre, this]
      · simp [semver.comparePre, hc₂] at h₂
    · rcases PRVersion_Compare_cases b d with ⟨hbd, hc₂⟩ | ⟨hbd, hc₂⟩ | ⟨hbd, hc₂⟩
      · have := (PRVersion_Compare_lt_iff a d).2 (hab ▸ hbd)
        simp [semver.comparePre, this]
      · have := (PRVersion_Compare_eq_iff a d).2 (hab.trans hbd)
        simp only [semver.comparePre, hc, hc₂, this, if_true] at h₁ h₂ ⊢
        exact comparePre_trans as bs ds h₁ h₂
      · simp [semver.comparePre, hc₂] at h₂
    · simp [semver.comparePre, hc] at h₁

theorem comparePre_lt_iff :
    ∀ l m : List semver.PRVersion, semver.comparePre l m = -1 ↔ semver.preLess l m
  | [], [] => by simp [semver.comparePre, semver.preLess]
  | [], _ :: _ => by simp [semver.comparePre, semver.preLess]
  | _ :: _, [] => by simp [semver.comparePre, semver.preLess]
  | a :: as, b :: bs => by
    rcases PRVersion_Compare_cases a b with ⟨h, hc⟩ | ⟨h, hc⟩ | ⟨h, hc⟩
    · simp [semver.comparePre, semver.preLess, hc, h]
    · simp [semver.comparePre, semver.preLess, hc, h, comparePre_lt_iff as bs]
    · simp [semver.comparePre, semver.preLess, hc, lt_asymm h, h.ne']

/-- The three-way comparison of versions is antisymmetric: swapping the arguments negates the
result, which is `-1`, `0` or `1`. -/
theorem Compare_cases (a b : semver.Version) :
    (a.Compare b = -1 ∧ b.Compare a = 1) ∨ (a.Compare b = 0 ∧ b.Compare a = 0) ∨
    (a.Compare b = 1 ∧ b.Compare a = -1) := by
  unfold semver.Version.Compare
  rcases lt_trichotomy a.Major b.Major with h | h | h
  · left
    simp [h.ne, h.ne', h, lt_asymm h]
  · rcases lt_trichotomy a.Minor b.Minor with h₂ | h₂ | h₂
    · left
      simp [h, h₂.ne, h₂.ne', h₂, lt_asymm h₂]
    · rcases lt_trichotomy a.Patch b.Patch with h₃ | h₃ | h₃
      · left
        simp [h, h₂, h₃.ne, h₃.ne', h₃, lt_asymm h₃]
      · rcases hpa : a.Pre with _ | ⟨x, xs⟩ <;> rcases hpb : b.Pre with _ | ⟨y, ys⟩
        · simp [h, h₂, h₃]
        · simp [h, h₂, h₃]
        · simp [h, h₂, h₃]
        · simpa [h, h₂, h₃] using comparePre_cases (x :: xs) (y :: ys)
      · right; right
        simp [h, h₂, h₃.ne, h₃.ne', h₃, lt_asymm h₃]
    · right; right
      simp [h, h₂.ne, h₂.ne', h₂, lt_asymm h₂]
  · right; right
    simp [h.ne, h.ne', h, lt_asymm h]

/-- The method `LT` decides semantic-version precedence. -/
theorem LT_iff_precedes (a b : semver.Version) : a.LT b = true ↔ semver.precedes a b := by
  unfold semver.Version.LT semver.Version.Compare semver.precedes
  rw [decide_eq_true_iff]
  rcases lt_trichotomy a.Major b.Major with h | h | h
  · simp [h.ne, h, lt_asymm h]
  · rcases lt_trichotomy a.Minor b.Minor with h₂ | h₂ | h₂
    · simp [h, h₂.ne, h₂, lt_asymm h₂]
    · rcases lt_trichotomy a.Patch b.Patch with h₃ | h₃ | h₃
      · simp [h, h₂, h₃.ne, h₃, lt_asymm h₃]
      · rcases hpa : a.Pre with _ | ⟨x, xs⟩ <;> rcases hpb : b.Pre with _ | ⟨y, ys⟩
        · simp [h, h₂, h₃]
        · simp [h, h₂, h₃]
        · simp [h, h₂, h₃]
        · simp [h, h₂, h₃, comparePre_lt_iff]
      · simp [h, h₂, h₃.ne', h₃, lt_asymm h₃]
    · simp [h, h₂.ne', h₂, lt_asymm h₂]
  · simp [h.ne', h, lt_asymm h]

theorem preLess_trans :
    ∀ l m n : List semver.PRVersion, semver.preLess l m → semver.preLess m n →
      semver.preLess l n := by
  intro l m n h₁ h₂
  rw [← comparePre_lt_iff] at h₁ h₂ ⊢
  exact comparePre_trans l m n h₁ h₂

theorem precedes_trans (a b c : semver.Version) (h₁ : semver.precedes a b)
    (h₂ : semver.precedes b c) : semver.precedes a c := by
  unfold semver.precedes at h₁ h₂ ⊢
  rcases h₁ with h₁ | ⟨e₁, h₁ | ⟨e₂, h₁ | ⟨e₃, h₁⟩⟩⟩ <;>
    rcases h₂ with h₂ | ⟨f₁, h₂ | ⟨f₂, h₂ | ⟨f₃, h₂⟩⟩⟩
  all_goals first
    | (left; omega)
    | (right; refine ⟨by omega, ?_⟩; left; omega)
    | (right; refine ⟨by omega, ?_⟩; right; refine ⟨by omega, ?_⟩; left; omega)
    | skip
  right; refine ⟨by omega, ?_⟩; right; refine ⟨by omega, ?_⟩; right; refine ⟨by omega, ?_⟩
  rcases h₁ with ⟨ha, hb⟩ | ⟨ha, hb, hl⟩
  · rcases h₂ with ⟨hb', _⟩ | ⟨hb', _, _⟩ <;> exact absurd hb hb'
  · rcases h₂ with ⟨_, hc⟩ | ⟨_, hc, hl'⟩
    · exact Or.inl ⟨ha, hc⟩
    · exact Or.inr ⟨ha, hc, preLess_trans _ _ _ hl hl'⟩

theorem LT_trans (a b c : semver.Version) (h₁ : a.LT b = true) (h₂ : b.LT c = true) :
    a.LT c = true :=
  (LT_iff_precedes a c).2
    (precedes_trans a b c ((LT_iff_precedes a b).1 h₁) ((LT_iff_precedes b c).1 h₂))

theorem LT_asymm (a b : semver.Version) (h : a.LT b = true) : b.LT a = false := by
  unfold semver.Version.LT at h ⊢
  rw [decide_eq_true_iff] at h
  rcases Compare_cases a b with ⟨_, h₂⟩ | ⟨h₁, _⟩ | ⟨h₁, _⟩
  · simp [h₂]
  · rw [h₁] at h
    exact absurd h (by decide)
  · rw [h₁] at h
    exact absurd h (by decide)

/-- Two versions of different precedence are ordered one way or the other. -/
theorem LT_total (a b : semver.Version) (h : a.Compare b ≠ 0) :
    a.LT b = true ∨ b.LT a = true := by
  unfold semver.Version.LT
  rcases Compare_cases a b with ⟨h₁, _⟩ | ⟨h₁, _⟩ | ⟨_, h₂⟩
  · exact Or.inl (by simp [h₁])
  · exact absurd h₁ h
  · exact Or.inr (by simp [h₂])

theorem Compare_ne_zero_symm (a b : semver.Version) (h : a.Compare b ≠ 0) :
    b.Compare a ≠ 0 := by
  rcases Compare_cases a b with ⟨_, h₂⟩ | ⟨h₁, _⟩ | ⟨_, h₂⟩
  · rw [h₂]; decide
  · exact absurd h₁ h
  · rw [h₂]; decide

/-! ## The order in which the releases are listed -/

theorem filterLoop_fault (drafts : Bool) :
    ∀ releases : List RepositoryRelease, (∃ r ∈ releases, r.Draft = none) →
      filterLoop drafts releases = none
  | [], h => by simp at h
  | x :: rest, h => by
    rcases hD : x.Draft with _ | d
    · simp [filterLoop, hD]
    · have hrest : ∃ r ∈ rest, r.Draft = none := by
        obtain ⟨r, hr, hrD⟩ := h
        rcases List.mem_cons.1 hr with h1 | h1
        · rw [h1, hD] at hrD
          exact Option.noConfusion hrD
        · exact ⟨r, h1, hrD⟩
      have ih := filterLoop_fault drafts rest hrest
      cases hE : eligible drafts x
      · rw [filterLoop_cons_not_eligible drafts x rest d hD hE, ih]
      · rw [filterLoop_cons_eligible drafts x rest hE, ih]
        rfl

/-- Candidates of pairwise different precedence admit one sorted arrangement only. -/
theorem sorted_candidates_unique (drafts : Bool) (releases : List RepositoryRelease)
    (s₁ s₂ : List RepositoryRelease)
    (hp₁ : s₁.Perm (candidates drafts releases)) (hp₂ : s₂.Perm (candidates drafts releases))
    (hs₁ : s₁.Pairwise (fun a b => Less b a ≠ some true))
    (hs₂ : s₂.Pairwise (fun a b => Less b a ≠ some true))
    (hdist : (candidates drafts releases).Pairwise (fun a b => samePrecedence a b = false)) :
    s₁ = s₂ := by
  refine List.Perm.eq_of_sorted ?_ hs₁ hs₂ (hp₁.trans hp₂.symm)
  intro a b ha hb hab hba
  by_contra hne
  have hac := hp₁.mem_iff.1 ha
  have hbc := hp₂.mem_iff.1 hb
  obtain ⟨va, hva⟩ := candidate_parsed drafts releases a hac
  obtain ⟨vb, hvb⟩ := candidate_parsed drafts releases b hbc
  have hsymm : Symmetric (fun a b : RepositoryRelease => samePrecedence a b = false) := by
    intro x y h
    unfold samePrecedence at h ⊢
    rcases hx : parsedVersion x with _ | vx <;> rcases hy : parsedVersion y with _ | vy
    · rfl
    · rfl
    · rfl
    · simp only [hx, hy, decide_eq_false_iff_not] at h ⊢
      exact Compare_ne_zero_symm vx vy h
  have hcmp : va.Compare vb ≠ 0 := by
    have h := hdist.forall hsymm hac hbc hne
    simpa [samePrecedence, hva, hvb] using h
  rw [Less_parsed b a vb va hvb hva] at hab
  rw [Less_parsed a b va vb hva hvb] at hba
  rcases LT_total va vb hcmp with h | h
  · exact hba (by rw [h])
  · exact hab (by rw [h])

/-- C11, as the code behaves: the result of `Run` does not depend on the order in which the
release source lists the releases, provided no two eligible releases have the same precedence
(`Compare` gives `0` for versions that differ only in build metadata): for every permutation
of such a collection, every cursor and every `Source.Drafts` flag, `Run` returns the same
result. -/
theorem check_independent_of_listing_order
    (sort : List RepositoryRelease → List RepositoryRelease)
    (releases releases₁ : List RepositoryRelease) (request : CheckRequest)
    (hperm : releases₁.Perm releases)
    (hsort : SortContract sort (candidates request.Source.Drafts releases))
    (hsort₁ : SortContract sort (candidates request.Source.Drafts releases₁))
    (hdist : (candidates request.Source.Drafts releases).Pairwise
      (fun a b => samePrecedence a b = false)) :
    Run sort (.ok releases₁) request = Run sort (.ok releases) request := by
  by_cases hflags : ∀ x ∈ releases, x.Draft ≠ none
  · have hflags₁ : ∀ x ∈ releases₁, x.Draft ≠ none :=
      fun x hx => hflags x (hperm.mem_iff.1 hx)
    rw [Run_ok sort releases request hflags hsort.1,
      Run_ok sort releases₁ request hflags₁ hsort₁.1]
    have hc : (candidates request.Source.Drafts releases₁).Perm
        (candidates request.Source.Drafts releases) := hperm.filter _
    rw [sorted_candidates_unique request.Source.Drafts releases _ _
      (hsort₁.1.trans hc) hsort.1 hsort₁.2 hsort.2 hdist]
  · have hex : ∃ r ∈ releases, r.Draft = none := by
      by_contra hno
      exact hflags (fun x hx hD => hno ⟨x, hx, hD⟩)
    have hex₁ : ∃ r ∈ releases₁, r.Draft = none := by
      obtain ⟨r, hr, hD⟩ := hex
      exact ⟨r, hperm.mem_iff.2 hr, hD⟩
    have hlen : releases.length ≠ 0 := by
      obtain ⟨r, hr, _⟩ := hex
      intro h0
      rw [List.length_eq_zero.1 h0] at hr
      simp at hr
    have hlen₁ : releases₁.length ≠ 0 := by
      rw [hperm.length_eq]
      exact hlen
    simp [Run, hlen, hlen₁, filterLoop_fault _ releases hex, filterLoop_fault _ releases₁ hex₁]

/-- Witness of C11 as amended: the releases `v0.1.4, 0.4.0, v0.1.3, 0.1.2` listed in two
orders, checked with the cursor tag `v0.1.3`. -/
theorem check_independent_of_listing_order_witness :
    Run insertionSort
        (.ok [published 4 "0.1.2", published 3 "v0.1.3", published 2 "0.4.0",
          published 1 "v0.1.4"])
        { Source := { Drafts := false }, Version := { Tag := "v0.1.3", ID := "" } } =
      Run insertionSort
        (.ok [published 1 "v0.1.4", published 2 "0.4.0", published 3 "v0.1.3",
          published 4 "0.1.2"])
        { Source := { Drafts := false }, Version := { Tag := "v0.1.3", ID := "" } } :=
  check_independent_of_listing_order insertionSort
    [published 1 "v0.1.4", published 2 "0.4.0", published 3 "v0.1.3", published 4 "0.1.2"]
    [published 4 "0.1.2", published 3 "v0.1.3", published 2 "0.4.0", published 1 "v0.1.4"]
    { Source := { Drafts := false }, Version := { Tag := "v0.1.3", ID := "" } }
    (by decide) (by unfold SortContract; decide) (by unfold SortContract; decide)
    (by decide)

/-- Counterexample to C11: the releases `1.0.0+a` and `1.0.0+b` have distinct parsed versions
(they differ in build metadata) and neither is lower than the other; listed as
`1.0.0+a, 1.0.0+b` the first run returns `1.0.0+b`, listed as `1.0.0+b, 1.0.0+a` it returns
`1.0.0+a`; the sort leaves either listing as it is, which the sort contract allows. -/
theorem check_listing_order_counterexample :
    (parsedVersion (published 1 "1.0.0+a") ≠ parsedVersion (published 2 "1.0.0+b") ∧
      (parsedVersion (published 1 "1.0.0+a")).isSome = true ∧
      (parsedVersion (published 2 "1.0.0+b")).isSome = true ∧
      samePrecedence (published 1 "1.0.0+a") (published 2 "1.0.0+b") = true ∧
      Less (published 1 "1.0.0+a") (published 2 "1.0.0+b") = some false ∧
      Less (published 2 "1.0.0+b") (published 1 "1.0.0+a") = some false ∧
      [published 2 "1.0.0+b", published 1 "1.0.0+a"].Perm
        [published 1 "1.0.0+a", published 2 "1.0.0+b"]) ∧
    (SortContract insertionSort
        (candidates false [published 1 "1.0.0+a", published 2 "1.0.0+b"]) ∧
      SortContract insertionSort
        (candidates false [published 2 "1.0.0+b", published 1 "1.0.0+a"])) ∧
    Run insertionSort (.ok [published 1 "1.0.0+a", published 2 "1.0.0+b"])
        { Source := { Drafts := false }, Version := { Tag := "", ID := "" } } =
      some ([{ Tag := "1.0.0+b", ID := "" }], none) ∧
    Run insertionSort (.ok [published 2 "1.0.0+b", published 1 "1.0.0+a"])
        { Source := { Drafts := false }, Version := { Tag := "", ID := "" } } =
      some ([{ Tag := "1.0.0+a", ID := "" }], none) := by
  refine ⟨by decide, ⟨?_, ?_⟩, by decide, by decide⟩
  · unfold SortContract
    decide
  · unfold SortContract
    decide

/-! ## Nothing older than the cursor -/

theorem first_match (request : CheckRequest) :
    ∀ s : List RepositoryRelease, (∀ x ∈ s, ∃ b, matchesCursor request x = some b) →
      (∃ c ∈ s, matchesCursor request c = some true) →
      ∃ k m, s[k]? = some m ∧ matchesCursor request m = some true ∧
        ∀ x ∈ s.take k, matchesCursor request x = some false
  | [], _, h => by simp at h
  | x :: s, hdef, h => by
    obtain ⟨b, hb⟩ := hdef x (List.mem_cons_self _ _)
    cases b with
    | true => exact ⟨0, x, by simp, hb, by simp⟩
    | false =>
      have hrest : ∃ c ∈ s, matchesCursor request c = some true := by
        obtain ⟨c, hc, hct⟩ := h
        rcases List.mem_cons.1 hc with h1 | h1
        · rw [h1, hb] at hct
          simp at hct
        · exact ⟨c, h1, hct⟩
      obtain ⟨k, m, hk, hm, hpre⟩ :=
        first_match request s (fun y hy => hdef y (List.mem_cons_of_mem _ hy)) hrest
      refine ⟨k + 1, m, by simpa using hk, hm, ?_⟩
      intro y hy
      rw [List.take_succ_cons] at hy
      rcases List.mem_cons.1 hy with h1 | h1
      · rw [h1]
        exact hb
      · exact hpre y h1

theorem parsedVersion_of_tag (a b : RepositoryRelease) (h : a.TagName = b.TagName) :
    parsedVersion a = parsedVersion b := by
  unfold parsedVersion
  rw [h]

/-- C12: whenever the cursor matches a candidate (by tag in a published run, by id string in a
draft run), `Run` returns no error and the tokens of releases `rs` that all come after the
release `m` at which the scan matches the cursor; they are in non-decreasing order of parsed
version and none of them has a parsed version lower than that of `m`. In a published run none
of them is lower than any candidate that carries the cursor's tag. -/
theorem check_never_reports_older_than_cursor
    (sort : List RepositoryRelease → List RepositoryRelease)
    (releases : List RepositoryRelease) (drafts : Bool) (cursor : Version)
    (hflags : ∀ x ∈ releases, x.Draft ≠ none ∧ x.ID ≠ none)
    (hsort : SortContract sort (candidates drafts releases))
    (hmatch : ∃ c ∈ candidates drafts releases,
      matchesCursor { Source := { Drafts := drafts }, Version := cursor } c = some true) :
    ∃ (k : Nat) (m : RepositoryRelease) (vs : List Version) (rs : List RepositoryRelease),
      (sort (candidates drafts releases))[k]? = some m ∧
      matchesCursor { Source := { Drafts := drafts }, Version := cursor } m = some true ∧
      (∀ x ∈ (sort (candidates drafts releases)).take k,
        matchesCursor { Source := { Drafts := drafts }, Version := cursor } x = some false) ∧
      Run sort (.ok releases) { Source := { Drafts := drafts }, Version := cursor } =
        some (vs, none) ∧
      rs.map versionFromDraft = vs.map some ∧
      rs.Sublist ((sort (candidates drafts releases)).drop (k + 1)) ∧
      rs.Pairwise (fun a b => ∀ va vb, parsedVersion a = some va → parsedVersion b = some vb →
        vb.LT va = false) ∧
      (∀ x ∈ rs, ∀ vx vm, parsedVersion x = some vx → parsedVersion m = some vm →
        vx.LT vm = false) ∧
      (drafts = false → ∀ c ∈ candidates drafts releases,
        matchesCursor { Source := { Drafts := drafts }, Version := cursor } c = some true →
        ∀ x ∈ rs, ∀ vx vc, parsedVersion x = some vx → parsedVersion c = some vc →
          vx.LT vc = false) := by
  have hperm := hsort.1
  have hdef : ∀ x ∈ sort (candidates drafts releases),
      (∃ v, versionFromDraft x = some v) ∧
      (∃ b, matchesCursor { Source := { Drafts := drafts }, Version := cursor } x = some b) ∧
      x.TagName ≠ none := by
    intro x hx
    have hxc := hperm.mem_iff.1 hx
    obtain ⟨hm, _, tag, _, hT, _, _⟩ := candidate_facts drafts releases x hxc
    exact ⟨candidate_token drafts releases x hxc (hflags x hm).2,
      candidate_matches _ drafts releases x hxc (hflags x hm).2, by simp [hT]⟩
  obtain ⟨k, m, hk, hm, hpre⟩ := first_match
    { Source := { Drafts := drafts }, Version := cursor } (sort (candidates drafts releases))
    (fun x hx => (hdef x hx).2.1)
    (by
      obtain ⟨c, hc, hct⟩ := hmatch
      exact ⟨c, hperm.mem_iff.2 hc, hct⟩)
  have hmmem : m ∈ sort (candidates drafts releases) := List.getElem?_mem hk
  have hmc := hperm.mem_iff.1 hmmem
  obtain ⟨hmrel, hmD, mtag, _, hmT, _, hm0⟩ := candidate_facts drafts releases m hmc
  have hcur : cursor ≠ { Tag := "", ID := "" } := by
    intro hc
    cases drafts with
    | false =>
      rw [matchesCursor_published _ m mtag hmD hmT] at hm
      simp only [Option.some.injEq, decide_eq_true_eq] at hm
      exact hm0 (by rw [← hm, hc])
    | true =>
      rcases hI : m.ID with _ | id
      · exact (hflags m hmrel).2 hI
      · rw [matchesCursor_draft _ m id hmD hI] at hm
        simp only [Option.some.injEq, decide_eq_true_eq] at hm
        exact Itoa_ne_empty id (by rw [← hm, hc])
  have hsplit := split_at_position _ k m hk
  have hpw := hsort.2
  rw [hsplit] at hpw
  have hpw₂ := (List.pairwise_append.1 hpw).2.1
  have hafter : ∀ x ∈ (sort (candidates drafts releases)).drop (k + 1),
      ∀ vx vm, parsedVersion x = some vx → parsedVersion m = some vm → vx.LT vm = false := by
    intro x hx vx vm hvx hvm
    have h := (List.pairwise_cons.1 hpw₂).1 x hx
    rw [Less_parsed x m vx vm hvx hvm] at h
    cases hlt : vx.LT vm
    · rfl
    · rw [hlt] at h
      exact absurd rfl h
  have hasc : ((sort (candidates drafts releases)).drop (k + 1)).Pairwise
      (fun a b => ∀ va vb, parsedVersion a = some va → parsedVersion b = some vb →
        vb.LT va = false) := by
    refine (List.pairwise_cons.1 hpw₂).2.imp ?_
    intro a b h va vb hva hvb
    rw [Less_parsed b a vb va hvb hva] at h
    cases hlt : vb.LT va
    · rfl
    · rw [hlt] at h
      exact absurd rfl h
  have hpub : ∀ rs : List RepositoryRelease,
      (∀ x ∈ rs, ∀ vx vm, parsedVersion x = some vx → parsedVersion m = some vm →
        vx.LT vm = false) →
      (drafts = false → ∀ c ∈ candidates drafts releases,
        matchesCursor { Source := { Drafts := drafts }, Version := cursor } c = some true →
        ∀ x ∈ rs, ∀ vx vc, parsedVersion x = some vx → parsedVersion c = some vc →
          vx.LT vc = false) := by
    intro rs hrs hd c hc hct x hx vx vc hvx hvc
    subst hd
    obtain ⟨_, hcD, ctag, _, hcT, _, _⟩ := candidate_facts false releases c hc
    rw [matchesCursor_published _ c ctag hcD hcT] at hct
    rw [matchesCursor_published _ m mtag hmD hmT] at hm
    simp only [Option.some.injEq, decide_eq_true_eq] at hct hm
    have htag : c.TagName = m.TagName := by rw [hcT, hmT, ← hct, ← hm]
    rw [parsedVersion_of_tag c m htag] at hvc
    exact hrs x hx vx vc hvx hvc
  obtain ⟨latest, hl⟩ : ∃ latest, (sort (candidates drafts releases)).getLast? = some latest :=
    ⟨_, List.getLast?_eq_getLast _ (List.ne_nil_of_mem hmmem)⟩
  rw [Run_ok sort releases _ (fun x hx => (hflags x hx).1) hperm]
  rcases hT : latest.TagName with _ | tag
  · exact absurd hT (hdef latest (List.mem_of_getLast?_eq_some hl)).2.2
  · by_cases hdiff : tag = cursor.Tag
    · refine ⟨k, m, [], [], hk, hm, hpre,
        resolve_latest_tag _ _ latest hl hcur (by rw [hT, hdiff]), rfl, List.nil_sublist _,
        List.Pairwise.nil, ?_, hpub [] ?_⟩
      · intro x hx
        simp at hx
      · intro x hx
        simp at hx
    · obtain ⟨vs, hvs⟩ := tokens_exist ((sort (candidates drafts releases)).drop (k + 1))
        (fun x hx => (hdef x (List.mem_of_mem_drop hx)).1)
      have hscan : scanLoop { Source := { Drafts := drafts }, Version := cursor }
          (sort (candidates drafts releases)) (false, []) = some (true, vs) := by
        have := scanLoop_match { Source := { Drafts := drafts }, Version := cursor } [] m
          ((sort (candidates drafts releases)).drop (k + 1)) vs hm hvs
          ((sort (candidates drafts releases)).take k) hpre
        rw [← hsplit] at this
        simpa using this
      refine ⟨k, m, vs, (sort (candidates drafts releases)).drop (k + 1), hk, hm, hpre, ?_,
        hvs, List.Sublist.refl _, hasc, hafter, hpub _ hafter⟩
      rw [resolve_scan _ _ latest tag true vs hl hcur hT hdiff hscan]
      simp

/-- Witness of C12: the releases `v0.1.4, 0.4.0, v0.1.3, 0.1.2` with the cursor tag
`v0.1.3`. -/
theorem check_never_reports_older_than_cursor_witness :
    ∃ (k : Nat) (m : RepositoryRelease) (vs : List Version) (rs : List RepositoryRelease),
      (insertionSort (candidates false [published 1 "v0.1.4", published 2 "0.4.0",
        published 3 "v0.1.3", published 4 "0.1.2"]))[k]? = some m ∧
      matchesCursor { Source := { Drafts := false }, Version := { Tag := "v0.1.3", ID := "" } }
        m = some true ∧
      (∀ x ∈ (insertionSort (candidates false [published 1 "v0.1.4", published 2 "0.4.0",
          published 3 "v0.1.3", published 4 "0.1.2"])).take k,
        matchesCursor
          { Source := { Drafts := false }, Version := { Tag := "v0.1.3", ID := "" } } x =
          some false) ∧
      Run insertionSort (.ok [published 1 "v0.1.4", published 2 "0.4.0",
          published 3 "v0.1.3", published 4 "0.1.2"])
        { Source := { Drafts := false }, Version := { Tag := "v0.1.3", ID := "" } } =
        some (vs, none) ∧
      rs.map versionFromDraft = vs.map some ∧
      rs.Sublist ((insertionSort (candidates false [published 1 "v0.1.4", published 2 "0.4.0",
        published 3 "v0.1.3", published 4 "0.1.2"])).drop (k + 1)) ∧
      rs.Pairwise (fun a b => ∀ va vb, parsedVersion a = some va → parsedVersion b = some vb →
        vb.LT va = false) ∧
      (∀ x ∈ rs, ∀ vx vm, parsedVersion x = some vx → parsedVersion m = some vm →
        vx.LT vm = false) ∧
      ((false : Bool) = false → ∀ c ∈ candidates false [published 1 "v0.1.4",
          published 2 "0.4.0", published 3 "v0.1.3", published 4 "0.1.2"],
        matchesCursor
          { Source := { Drafts := false }, Version := { Tag := "v0.1.3", ID := "" } } c =
          some true →
        ∀ x ∈ rs, ∀ vx vc, parsedVersion x = some vx → parsedVersion c = some vc →
          vx.LT vc = false) :=
  check_never_reports_older_than_cursor insertionSort
    [published 1 "v0.1.4", published 2 "0.4.0", published 3 "v0.1.3", published 4 "0.1.2"]
    false { Tag := "v0.1.3", ID := "" }
    (by decide) (by unfold SortContract; decide) (by decide)

/-- C13, evaluated on the code: on the releases the tests build,
`buildRelease(1, "v0.35.0", false)` and `buildRelease(1, "v0.35.0", true)`, whose prerelease
flag is unset, `metadataFromRelease` faults at line 51 and yields no pairs, where the tests
state three; the name, HTML URL, body and tag name are read under a nil check, the prerelease
flag is not. With the flag set to `false` the published release yields four pairs, the fourth
being the `tag` pair. -/
theorem metadata_faults_on_built_release :
    metadataFromRelease (buildRelease 1 "v0.35.0" false) = none ∧
    metadataFromRelease (buildRelease 1 "v0.35.0" true) = none ∧
    metadataFromRelease { (buildRelease 1 "v0.35.0" false) with Prerelease := some false } =
      some [{ Name := "name", Value := "release-name", URL := "http://google.com",
                      Markdown := false },
          { Name := "url", Value := "http://google.com", URL := "", Markdown := false },
          { Name := "body", Value := "*markdown*", URL := "", Markdown := true },
          { Name := "tag", Value := "v0.35.0", URL := "", Markdown := false }] := by
  decide

/-- C14: on releases whose normalized tags parse, `byVersion.Less` is the strict order of
semantic-version precedence: `Less(i, j)` holds exactly when the parsed version of tag `i`
precedes that of tag `j` (major, then minor, then patch, then pre-release precedence); it is
irreflexive, asymmetric and transitive, and of two releases with different precedence exactly
one is `Less` than the other. -/
theorem less_is_strict_precedence_order
    (a b c : RepositoryRelease) (va vb vc : semver.Version)
    (ha : parsedVersion a = some va) (hb : parsedVersion b = some vb)
    (hc : parsedVersion c = some vc) :
    (Less a b = some true ↔ semver.precedes va vb) ∧
    Less a a = some false ∧
    (Less a b = some true → Less b a = some false) ∧
    (Less a b = some true → Less b c = some true → Less a c = some true) ∧
    (va.Compare vb ≠ 0 →
      (Less a b = some true ∧ Less b a = some false) ∨
      (Less a b = some false ∧ Less b a = some true)) := by
  rw [Less_parsed a b va vb ha hb, Less_parsed a a va va ha ha, Less_parsed b a vb va hb ha,
    Less_parsed b c vb vc hb hc, Less_parsed a c va vc ha hc]
  refine ⟨?_, by rw [LT_irrefl], ?_, ?_, ?_⟩
  · rw [Option.some.injEq]
    exact LT_iff_precedes va vb
  · intro h
    rw [LT_asymm va vb (Option.some.inj h)]
  · intro h₁ h₂
    rw [LT_trans va vb vc (Option.some.inj h₁) (Option.some.inj h₂)]
  · intro hne
    rcases LT_total va vb hne with h | h
    · exact Or.inl ⟨by rw [h], by rw [LT_asymm va vb h]⟩
    · exact Or.inr ⟨by rw [LT_asymm vb va h], by rw [h]⟩

/-- Witness of C14: the releases `0.1.2`, `v0.1.3` and `0.4.0`. -/
theorem less_is_strict_precedence_order_witness :
    (Less (published 4 "0.1.2") (published 3 "v0.1.3") = some true ↔
      semver.precedes
        { Major := 0, Minor := 1, Patch := 2, Pre := [], Build := [] }
        { Major := 0, Minor := 1, Patch := 3, Pre := [], Build := [] }) ∧
    Less (published 4 "0.1.2") (published 4 "0.1.2") = some false ∧
    (Less (published 4 "0.1.2") (published 3 "v0.1.3") = some true →
      Less (published 3 "v0.1.3") (published 4 "0.1.2") = some false) ∧
    (Less (published 4 "0.1.2") (published 3 "v0.1.3") = some true →
      Less (published 3 "v0.1.3") (published 2 "0.4.0") = some true →
      Less (published 4 "0.1.2") (published 2 "0.4.0") = some true) ∧
    ((semver.Version.Compare
        { Major := 0, Minor := 1, Patch := 2, Pre := [], Build := [] }
        { Major := 0, Minor := 1, Patch := 3, Pre := [], Build := [] }) ≠ 0 →
      (Less (published 4 "0.1.2") (published 3 "v0.1.3") = some true ∧
        Less (published 3 "v0.1.3") (published 4 "0.1.2") = some false) ∨
      (Less (published 4 "0.1.2") (published 3 "v0.1.3") = some false ∧
        Less (published 3 "v0.1.3") (published 4 "0.1.2") = some true)) :=
  less_is_strict_precedence_order (published 4 "0.1.2") (published 3 "v0.1.3")
    (published 2 "0.4.0")
    { Major := 0, Minor := 1, Patch := 2, Pre := [], Build := [] }
    { Major := 0, Minor := 1, Patch := 3, Pre := [], Build := [] }
    { Major := 0, Minor := 4, Patch := 0, Pre := [], Build := [] }
    (by decide) (by decide) (by decide)

/-- C15: in `byVersion.Less` the unparseable side sorts as lowest: when tag `i` fails to parse
and tag `j` parses, `Less(i, j)` is true and `Less(j, i)` is false. -/
theorem less_unparseable_side_is_lowest
    (ri rj : RepositoryRelease) (ti tj : String) (v : semver.Version)
    (hi : ri.TagName = some ti) (hpi : semver.New (determineVersionFromTag ti) = none)
    (hj : rj.TagName = some tj) (hpj : semver.New (determineVersionFromTag tj) = some v) :
    Less ri rj = some true ∧ Less rj ri = some false := by
  simp [Less, hi, hpi, hj, hpj]

/-- Witness of C15: the tag `nightly` against the tag `v1.0.0`. -/
theorem less_unparseable_side_is_lowest_witness :
    Less (published 1 "nightly") (published 2 "v1.0.0") = some true ∧
    Less (published 2 "v1.0.0") (published 1 "nightly") = some false :=
  less_unparseable_side_is_lowest (published 1 "nightly") (published 2 "v1.0.0")
    "nightly" "v1.0.0" { Major := 1, Minor := 0, Patch := 0, Pre := [], Build := [] }
    (by decide) (by decide) (by decide) (by decide)

/-- C16, as the code behaves: on tagged releases `byVersion.Less` is irreflexive and asymmetric
where a tag parses: `Less(i, j)` and `Less(j, i)` never both hold when at least one of the two
tags parses, and `Less(i, i)` is false when tag `i` parses. When tag `i` fails to parse,
`Less(i, j)` is true for every tagged release `j`, also for `j = i`. -/
theorem less_on_the_defensive_path
    (ri rj : RepositoryRelease) (ti tj : String)
    (hi : ri.TagName = some ti) (hj : rj.TagName = some tj) :
    ((parsedVersion ri ≠ none ∨ parsedVersion rj ≠ none) →
      ¬ (Less ri rj = some true ∧ Less rj ri = some true)) ∧
    (parsedVersion ri ≠ none → Less ri ri = some false) ∧
    (parsedVersion ri = none → Less ri rj = some true ∧ Less ri ri = some true) := by
  have hpi : parsedVersion ri = semver.New (determineVersionFromTag ti) := by
    simp [parsedVersion, hi]
  have hpj : parsedVersion rj = semver.New (determineVersionFromTag tj) := by
    simp [parsedVersion, hj]
  rw [hpi, hpj]
  rcases hvi : semver.New (determineVersionFromTag ti) with _ | vi <;>
    rcases hvj : semver.New (determineVersionFromTag tj) with _ | vj
  · simp [Less, hi, hj, hvi]
  · simp [Less, hi, hj, hvi, hvj]
  · simp [Less, hi, hj, hvi, hvj, LT_irrefl]
  · refine ⟨?_, by simp [Less, hi, hvi, LT_irrefl], by simp⟩
    intro _ h
    simp only [Less, hi, hj, hvi, hvj, Option.some.injEq] at h
    have := LT_asymm vi vj h.1
    rw [h.2] at this
    exact Bool.noConfusion this

/-- Witness of C16 as amended: the tag `nightly` against the tag `v1.0.0`. -/
theorem less_on_the_defensive_path_witness :
    ((parsedVersion (published 1 "nightly") ≠ none ∨
        parsedVersion (published 2 "v1.0.0") ≠ none) →
      ¬ (Less (published 1 "nightly") (published 2 "v1.0.0") = some true ∧
        Less (published 2 "v1.0.0") (published 1 "nightly") = some true)) ∧
    (parsedVersion (published 1 "nightly") ≠ none →
      Less (published 1 "nightly") (published 1 "nightly") = some false) ∧
    (parsedVersion (published 1 "nightly") = none →
      Less (published 1 "nightly") (published 2 "v1.0.0") = some true ∧
      Less (published 1 "nightly") (published 1 "nightly") = some true) :=
  less_on_the_defensive_path (published 1 "nightly") (published 2 "v1.0.0")
    "nightly" "v1.0.0" (by decide) (by decide)

/-- Counterexample to C16: for the tagged release `nightly`, whose tag fails to parse,
`Less(i, i)` is true; for the two releases `nightly` and `latest` both `Less(i, j)` and
`Less(j, i)` are true. -/
theorem less_defensive_path_counterexample :
    Less (published 1 "nightly") (published 1 "nightly") = some true ∧
    Less (published 1 "nightly") (published 2 "latest") = some true ∧
    Less (published 2 "latest") (published 1 "nightly") = some true := by
  decide

/-- C17: `Run` has no internal failure mode. For every release collection in which each
release carries a draft flag and an id (the tag may be absent), every cursor and every
`Source.Drafts` flag, `Run` completes and returns a nil error; the filter loop completes, and
on every release that passed the filter the tag is present, so that the comparator, the cursor
test and the token construction read no absent field; the last element is taken from a
non-empty list only. -/
theorem check_has_no_internal_failure
    (sort : List RepositoryRelease → List RepositoryRelease)
    (releases : List RepositoryRelease) (request : CheckRequest)
    (hflags : ∀ x ∈ releases, x.Draft ≠ none ∧ x.ID ≠ none)
    (hsort : SortContract sort (candidates request.Source.Drafts releases)) :
    (∃ vs, Run sort (.ok releases) request = some (vs, none)) ∧
    filterLoop request.Source.Drafts releases =
      some (candidates request.Source.Drafts releases) ∧
    (∀ a ∈ sort (candidates request.Source.Drafts releases),
      a.TagName ≠ none ∧ versionFromDraft a ≠ none ∧ matchesCursor request a ≠ none ∧
      ∀ b ∈ sort (candidates request.Source.Drafts releases), Less a b ≠ none) ∧
    (sort (candidates request.Source.Drafts releases) ≠ [] →
      (sort (candidates request.Source.Drafts releases)).getLast? ≠ none) := by
  have hperm := hsort.1
  have hdef : ∀ x ∈ sort (candidates request.Source.Drafts releases),
      (∃ v, versionFromDraft x = some v) ∧ (∃ b, matchesCursor request x = some b) ∧
      x.TagName ≠ none := by
    intro x hx
    have hxc := hperm.mem_iff.1 hx
    obtain ⟨hm, _, tag, _, hT, _, _⟩ :=
      candidate_facts request.Source.Drafts releases x hxc
    exact ⟨candidate_token _ releases x hxc (hflags x hm).2,
      candidate_matches request _ releases x hxc (hflags x hm).2, by simp [hT]⟩
  refine ⟨?_, filterLoop_of_flags _ releases (fun x hx => (hflags x hx).1), ?_, ?_⟩
  · rw [Run_ok sort releases request (fun x hx => (hflags x hx).1) hperm]
    exact resolve_total request _ hdef
  · intro a ha
    obtain ⟨⟨v, hv⟩, ⟨m, hm⟩, hT⟩ := hdef a ha
    refine ⟨hT, by simp [hv], by simp [hm], ?_⟩
    intro b hb
    obtain ⟨va, hva⟩ := candidate_parsed _ releases a (hperm.mem_iff.1 ha)
    obtain ⟨vb, hvb⟩ := candidate_parsed _ releases b (hperm.mem_iff.1 hb)
    rw [Less_parsed a b va vb hva hvb]
    simp
  · intro hne
    rw [List.getLast?_eq_getLast _ hne]
    simp

/-- Witness of C17: a collection with a draft, a release without a tag and a release with a
malformed tag among published releases, checked with a cursor. -/
theorem check_has_no_internal_failure_witness :
    (∃ vs, Run insertionSort
      (.ok [published 1 "v0.1.4", draft 2 "0.4.0",
        { ID := some 5, TagName := none, Name := none, Body := none, HTMLURL := none,
          Draft := some false, Prerelease := some false },
        published 3 "v0.1.3", published 4 "x"])
      { Source := { Drafts := false }, Version := { Tag := "v0.1.3", ID := "" } } =
      some (vs, none)) ∧
    filterLoop false
      [published 1 "v0.1.4", draft 2 "0.4.0",
        { ID := some 5, TagName := none, Name := none, Body := none, HTMLURL := none,
          Draft := some false, Prerelease := some false },
        published 3 "v0.1.3", published 4 "x"] =
      some (candidates false
        [published 1 "v0.1.4", draft 2 "0.4.0",
          { ID := some 5, TagName := none, Name := none, Body := none, HTMLURL := none,
            Draft := some false, Prerelease := some false },
          published 3 "v0.1.3", published 4 "x"]) :=
  have h := check_has_no_internal_failure insertionSort
    [published 1 "v0.1.4", draft 2 "0.4.0",
      { ID := some 5, TagName := none, Name := none, Body := none, HTMLURL := none,
        Draft := some false, Prerelease := some false },
      published 3 "v0.1.3", published 4 "x"]
    { Source := { Drafts := false }, Version := { Tag := "v0.1.3", ID := "" } }
    (by decide) (by unfold SortContract; decide)
  ⟨h.1, h.2.1⟩

/-- C18, evaluated on the code: on the fixtures of the check tests, releases that carry only a
tag name, `Run` does not complete: line 34 dereferences the absent draft flag, whatever the
sort and the request are. -/
theorem check_faults_on_tag_only_fixtures
    (sort : List RepositoryRelease → List RepositoryRelease) (request : CheckRequest) :
    Run sort (.ok [tagged "v0.4.0", tagged "0.1.3", tagged "v0.1.2"]) request = none ∧
    Run sort (.ok [tagged "v0.1.4", tagged "0.4.0", tagged "v0.1.3", tagged "0.1.2"]) request =
      none := by
  constructor <;> simp [Run, filterLoop, tagged]

/-! ## An empty result -/

theorem scanLoop_found_length (request : CheckRequest) :
    ∀ (l : List RepositoryRelease) (acc : List Version) (found : Bool) (out : List Version),
      scanLoop request l (true, acc) = some (found, out) →
      found = true ∧ out.length = acc.length + l.length
  | [], acc, found, out, h => by
    simp only [scanLoop, Option.some.injEq, Prod.mk.injEq] at h
    exact ⟨h.1.symm, by rw [← h.2]; simp⟩
  | x :: l, acc, found, out, h => by
    simp only [scanLoop, scanStep, if_true] at h
    rcases hv : versionFromDraft x with _ | v
    · simp [hv] at h
    · simp only [hv] at h
      obtain ⟨h1, h2⟩ := scanLoop_found_length request l (acc ++ [v]) found out h
      refine ⟨h1, ?_⟩
      rw [h2]
      simp
      omega

/-- When the scan ends matched without having appended anything, it matched at the last
release. -/
theorem scanLoop_matched_at_last (request : CheckRequest) :
    ∀ (l : List RepositoryRelease) (acc out : List Version),
      scanLoop request l (false, acc) = some (true, out) → out.length = acc.length →
      ∃ m, l.getLast? = some m ∧ matchesCursor request m = some true
  | [], acc, out, h, _ => by simp [scanLoop] at h
  | x :: l, acc, out, h, hlen => by
    simp only [scanLoop, scanStep, Bool.false_eq_true, if_false] at h
    rcases hm : matchesCursor request x with _ | b
    · simp [hm] at h
    · simp only [hm] at h
      cases b with
      | true =>
        obtain ⟨_, h2⟩ := scanLoop_found_length request l acc true out h
        have hl : l = [] := by
          apply List.length_eq_zero.1
          omega
        subst hl
        exact ⟨x, by simp, hm⟩
      | false =>
        obtain ⟨m, hml, hmm⟩ := scanLoop_matched_at_last request l acc out h hlen
        refine ⟨m, ?_, hmm⟩
        cases l with
        | nil => simp at hml
        | cons y ys => rw [List.getLast?_cons_cons]; exact hml

/-- C19: a vanished or absent cursor is never reported as "nothing new". When the candidate
set is not empty and `Run` returns the empty list, the cursor is not empty and identifies the
last of the sorted candidates: its `Tag` is that candidate's tag or, in a draft run, its `ID`
is the decimal string of that candidate's id. -/
theorem check_empty_result_means_cursor_at_latest
    (sort : List RepositoryRelease → List RepositoryRelease)
    (releases : List RepositoryRelease) (drafts : Bool) (cursor : Version)
    (err : Option GoError)
    (hsort : SortContract sort (candidates drafts releases))
    (hne : candidates drafts releases ≠ [])
    (hrun : Run sort (.ok releases) { Source := { Drafts := drafts }, Version := cursor } =
      some ([], err)) :
    cursor ≠ { Tag := "", ID := "" } ∧
    ∃ latest, (sort (candidates drafts releases)).getLast? = some latest ∧
      (latest.TagName = some cursor.Tag ∨
        (drafts = true ∧ ∃ id, latest.ID = some id ∧ cursor.ID = strconv.Itoa id)) := by
  have hperm := hsort.1
  obtain ⟨latest, hl, hlc⟩ := sorted_last_exists sort _ hperm hne
  have hlen : releases.length ≠ 0 := by
    intro h0
    rw [List.length_eq_zero.1 h0] at hne
    exact hne rfl
  simp only [Run, hlen, if_false] at hrun
  rcases hf : filterLoop drafts releases with _ | kept
  · simp [hf] at hrun
  · simp only [hf] at hrun
    have hkept := filterLoop_eq_some drafts releases kept hf
    subst hkept
    have hslen : (sort (candidates drafts releases)).length ≠ 0 := by
      intro h0
      rw [List.length_eq_zero.1 h0] at hl
      simp at hl
    obtain ⟨_, hD, tag, _, hT, _, _⟩ := candidate_facts drafts releases latest hlc
    by_cases hv0 : cursor = { Tag := "", ID := "" }
    · exfalso
      rcases hv : versionFromDraft latest with _ | w
      · simp [resolve, hslen, hl, hv0, hv] at hrun
      · simp [resolve, hslen, hl, hv0, hv] at hrun
    · refine ⟨hv0, latest, hl, ?_⟩
      by_cases hdiff : tag = cursor.Tag
      · exact Or.inl (by rw [hT, hdiff])
      · rcases hscan : scanLoop { Source := { Drafts := drafts }, Version := cursor }
            (sort (candidates drafts releases)) (false, []) with _ | ⟨found, out⟩
        · simp [resolve, hslen, hl, hv0, hT, hdiff, hscan] at hrun
        · rw [resolve_scan _ _ latest tag found out hl hv0 hT hdiff hscan] at hrun
          cases found with
          | false =>
            exfalso
            rcases hv : versionFromDraft latest with _ | w
            · simp [hv] at hrun
            · simp [hv] at hrun
          | true =>
            simp only [if_true, Option.some.injEq, Prod.mk.injEq] at hrun
            have hout : out = [] := hrun.1
            subst hout
            obtain ⟨m, hml, hmm⟩ := scanLoop_matched_at_last _ _ [] [] hscan rfl
            rw [hl] at hml
            have hmeq : latest = m := Option.some.inj hml
            subst hmeq
            cases drafts with
            | false =>
              rw [matchesCursor_published _ latest tag hD hT] at hmm
              simp only [Option.some.injEq, decide_eq_true_eq] at hmm
              exact absurd hmm.symm hdiff
            | true =>
              rcases hI : latest.ID with _ | id
              · simp [matchesCursor, hD, hI] at hmm
              · rw [matchesCursor_draft _ latest id hD hI] at hmm
                simp only [Option.some.injEq, decide_eq_true_eq] at hmm
                exact Or.inr ⟨rfl, id, rfl, hmm⟩

/-- Witness of C19: the drafts with ids 1 and 2 and the cursor `{ID: 2}`, for which `Run`
returns the empty list. -/
theorem check_empty_result_means_cursor_at_latest_witness :
    ({ Tag := "", ID := "2" } : Version) ≠ { Tag := "", ID := "" } ∧
    ∃ latest, (insertionSort (candidates true [draft 2 "v2.0.0", draft 1 "v1.0.0"])).getLast? =
        some latest ∧
      (latest.TagName = some ({ Tag := "", ID := "2" } : Version).Tag ∨
        ((true : Bool) = true ∧ ∃ id, latest.ID = some id ∧
          ({ Tag := "", ID := "2" } : Version).ID = strconv.Itoa id)) :=
  check_empty_result_means_cursor_at_latest insertionSort
    [draft 2 "v2.0.0", draft 1 "v1.0.0"] true { Tag := "", ID := "2" } none
    (by unfold SortContract; decide) (by decide) (by decide)

/-- C20: for a release whose `Draft` and `Prerelease` flags are set, `metadataFromRelease`
returns the pairs in the fixed order name, url, body, tag, draft, pre-release, each one present
exactly when its field is present (`Name`, `HTMLURL`, `Body`, `TagName`) or true (`Draft`,
`Prerelease`); the name pair carries the HTML URL as `URL` when there is one, only the body
pair has `Markdown` set, and the draft and pre-release pairs have the value `"true"`. -/
theorem metadata_pairs_in_fixed_order
    (release : RepositoryRelease) (isDraft isPrerelease : Bool)
    (hD : release.Draft = some isDraft) (hP : release.Prerelease = some isPrerelease) :
    metadataFromRelease release =
      some ((release.Name.map (fun name =>
            ({ Name := "name", Value := name, URL := release.HTMLURL.getD "",
               Markdown := false } : MetadataPair))).toList ++
        (release.HTMLURL.map (fun url =>
            ({ Name := "url", Value := url, URL := "", Markdown := false } :
              MetadataPair))).toList ++
        (release.Body.map (fun body =>
            ({ Name := "body", Value := body, URL := "", Markdown := true } :
              MetadataPair))).toList ++
        (release.TagName.map (fun tag =>
            ({ Name := "tag", Value := tag, URL := "", Markdown := false } :
              MetadataPair))).toList ++
        (if isDraft then [{ Name := "draft", Value := "true", URL := "", Markdown := false }]
          else []) ++
        (if isPrerelease then
          [{ Name := "pre-release", Value := "true", URL := "", Markdown := false }]
          else [])) := by
  simp only [metadataFromRelease, hD, hP]
  cases release.Name <;> cases release.HTMLURL <;> cases release.Body <;>
    cases release.TagName <;> cases isDraft <;> cases isPrerelease <;> simp

/-- Witness of C20: a draft pre-release with a name, a body and a tag but no HTML URL. -/
theorem metadata_pairs_in_fixed_order_witness :
    metadataFromRelease
      { ID := some 7, TagName := some "v1.0.0-rc.1", Name := some "candidate",
        Body := some "notes", HTMLURL := none, Draft := some true, Prerelease := some true } =
      some [{ Name := "name", Value := "candidate", URL := "", Markdown := false },
        { Name := "body", Value := "notes", URL := "", Markdown := true },
        { Name := "tag", Value := "v1.0.0-rc.1", URL := "", Markdown := false },
        { Name := "draft", Value := "true", URL := "", Markdown := false },
        { Name := "pre-release", Value := "true", URL := "", Markdown := false }] :=
  metadata_pairs_in_fixed_order
    { ID := some 7, TagName := some "v1.0.0-rc.1", Name := some "candidate",
      Body := some "notes", HTMLURL := none, Draft := some true, Prerelease := some true }
    true true (by decide) (by decide)

end resource
